import Mathlib

/-!
Shallow embedding of the query editing core of malloy-composer,
translated from src/src/core/query.ts (classes SourceUtils, QueryBuilder and
QueryWriter, plus the Fragment renderer at the bottom of that file).

Conventions of the embedding:
* TypeScript in-place mutation becomes explicit state passing on
  `QueryBuilderState`; every operation returns `Except QError QueryBuilderState`.
* Thrown JavaScript errors become `Except.error`; the dedicated
  `NotAStageError` class (which `autoExpandStageAtPath` catches by `instanceof`)
  becomes the `QError.notAStage` constructor carrying the offending field.
* Deep copies (`JSON.parse(JSON.stringify(...))`) are value copies, which in a
  pure embedding are the values themselves.
* The external schema algebra `QuerySegment.nextStructDef` (imported from the
  malloy package and out of scope per the spec) is a function parameter `proj`.
* `expressionIsCalculation` (external) is modelled by an explicit
  `ExpressionKind` on atomic fields.
* Out-of-range array accesses that in TypeScript would surface as `undefined`
  followed by a `TypeError` at the use site are modelled as `QError.err`
  errors; in-range behaviour is unchanged.
-/

/-- Kind of a pipeline stage (`PipeSegment.type` in the source). Edits only
exercise the reduce kind; the others exist so the reduce checks are honest. -/
inductive StageType where
  | reduce
  | project
  | index
deriving DecidableEq, Repr

/-- Classification standing for the `expressionType` consulted through the
external `expressionIsCalculation` helper. -/
inductive ExpressionKind where
  | scalar
  | aggregate
  | analytic
deriving DecidableEq, Repr

/-- Mirrors the external `expressionIsCalculation`: aggregate and analytic
expressions are calculations, scalar ones are not. -/
def expressionIsCalculation : ExpressionKind → Bool
  | .scalar => false
  | .aggregate => true
  | .analytic => true

/-- A filter expression; query.ts only ever reads its `code` (source text). -/
structure FilterExpression where
  code : String
deriving DecidableEq, Repr

inductive OrderDirection where
  | asc
  | desc
deriving DecidableEq, Repr

/-- `order.field` is `string | number` in the source; the number form is the
legacy 1-based positional reference. -/
inductive OrderByTarget where
  | byName (name : String)
  | byPosition (pos : Nat)
deriving DecidableEq, Repr

structure OrderByClause where
  field : OrderByTarget
  dir : Option OrderDirection
deriving DecidableEq, Repr

/-- Modelled from the spec: `SchemaField` lives in src/types.ts, which is not
among the given sources; `addLimit` only reads its dotted `path`. -/
structure SchemaField where
  path : String
deriving DecidableEq, Repr

/-- Modelled from the spec: a stage path is an ordered sequence of
(stage-index, field-index) descents followed by a final stage index.
`stagePathPop` (used by `stageAtPath`) yields the outermost hop, and
`stagePathParent` (used by `removeStage`) yields the final stage index with
the remaining prefix; both live in src/types.ts, absent from the sources, so
they are built into the recursion of the functions below, faithful to the
iterative descent the spec describes. -/
structure StagePath where
  hops : List (Nat × Nat)
  last : Nat
deriving DecidableEq, Repr

mutual
/-- `FieldDef` from the malloy model as consumed by query.ts: a nested
structure, a nested query (turtle), or an atomic field. -/
inductive FieldDef where
  | struct (name : String) (asName : Option String) (fields : List FieldDef)
  | turtle (name : String) (asName : Option String) (pipeline : List Stage)
  | atomic (name : String) (asName : Option String) (code : String) (ekind : ExpressionKind)

/-- `QueryFieldDef`: a bare dotted name (string), a `FilteredAliasedName`, or
an inline `FieldDef` definition. -/
inductive QueryFieldDef where
  | path (p : String)
  | fan (name : String) (asName : Option String) (filterList : Option (List FilterExpression))
  | defn (d : FieldDef)

/-- One pipeline stage (`PipeSegment`). Only reduce stages carry `orderBy`
and `by` in malloy; keeping them on every stage is harmless because every
consumer in query.ts checks `type === "reduce"` first. -/
inductive Stage where
  | mk (kind : StageType) (fields : List QueryFieldDef)
      (filterList : Option (List FilterExpression))
      (limit : Option Nat)
      (orderBy : Option (List OrderByClause))
      (byClause : Option String)
end

def Stage.kind : Stage → StageType
  | .mk k _ _ _ _ _ => k

def Stage.fields : Stage → List QueryFieldDef
  | .mk _ f _ _ _ _ => f

def Stage.filterList : Stage → Option (List FilterExpression)
  | .mk _ _ fl _ _ _ => fl

def Stage.limit : Stage → Option Nat
  | .mk _ _ _ l _ _ => l

def Stage.orderBy : Stage → Option (List OrderByClause)
  | .mk _ _ _ _ ob _ => ob

def Stage.byClause : Stage → Option String
  | .mk _ _ _ _ _ b => b

def Stage.withFields : Stage → List QueryFieldDef → Stage
  | .mk k _ fl l ob b, f => .mk k f fl l ob b

def Stage.withFilterList : Stage → Option (List FilterExpression) → Stage
  | .mk k f _ l ob b, fl => .mk k f fl l ob b

def Stage.withLimit : Stage → Option Nat → Stage
  | .mk k f fl _ ob b, l => .mk k f fl l ob b

def Stage.withOrderBy : Stage → Option (List OrderByClause) → Stage
  | .mk k f fl l _ b, ob => .mk k f fl l ob b

def Stage.withByClause : Stage → Option String → Stage
  | .mk k f fl l ob _, b => .mk k f fl l ob b

/-- `StructDef`: a named schema structure. `FieldDef.struct` carries the same
data, so descending converts between the two shapes. -/
structure StructDef where
  name : String
  asName : Option String
  fields : List FieldDef

/-- The builder-owned query: `{pipeline, name, type: "turtle"}`. -/
structure TurtleDef where
  name : String
  asName : Option String
  pipeline : List Stage

/-- The mutable state of a `QueryBuilder`: the bound root schema and the
query tree. -/
structure QueryBuilderState where
  source : StructDef
  query : TurtleDef

/-- Errors. `notAStage` mirrors the `NotAStageError` class (the only error
`autoExpandStageAtPath` catches); `err` mirrors plain `Error(message)`. -/
inductive QError where
  | notAStage (field : QueryFieldDef)
  | err (msg : String)

/-- `f.as || f.name` on a schema field. -/
def FieldDef.displayName : FieldDef → String
  | .struct n a _ => a.getD n
  | .turtle n a _ => a.getD n
  | .atomic n a _ _ => a.getD n

def FieldDef.withAsName : FieldDef → Option String → FieldDef
  | .struct n _ f, a => .struct n a f
  | .turtle n _ p, a => .turtle n a p
  | .atomic n _ c e, a => .atomic n a c e

/-- `QueryBuilder.nameOf`: the display name of a query field. -/
def nameOfQueryField : QueryFieldDef → String
  | .path p => p
  | .fan n a _ => a.getD n
  | .defn d => d.displayName

/-- `fields.find((f) => (f.as || f.name) === nm)`. -/
def findByName (fields : List FieldDef) (nm : String) : Option FieldDef :=
  fields.find? (fun f => f.displayName == nm)

/-- Fold the external schema algebra over a pipeline (the repeated
`modifySourceForStage` loops of the source). -/
def projectPipeline (proj : StructDef → Stage → StructDef)
    (src : StructDef) (pipe : List Stage) : StructDef :=
  pipe.foldl proj src

/-- `String.split(".")` over the character list (same semantics as the
JavaScript split on a one-character separator), in a form that evaluates by
definitional reduction. -/
def splitOnChar (c : Char) (l : List Char) : List String :=
  match l with
  | [] => [""]
  | x :: xs =>
    if x = c then "" :: splitOnChar c xs
    else match splitOnChar c xs with
      | [] => [String.mk [x]]
      | w :: ws => String.mk (x :: w.data) :: ws

def splitDots (s : String) : List String := splitOnChar '.' s.data

/-- `SourceUtils.getField`, descending over the dot-separated parts. On a
non-terminal turtle segment the source restarts from the ROOT source
(`this.getSource()`) projected through the turtle pipeline, exactly as in the
code. -/
def getFieldAux (proj : StructDef → Stage → StructDef) (root : StructDef) :
    List String → StructDef → Except QError FieldDef
  | [], _ => .error (.err "empty path")
  | [p], src =>
    match findByName src.fields p with
    | some f => .ok f
    | none => .error (.err ("Could not find " ++ p))
  | p :: q :: rest, src =>
    match findByName src.fields p with
    | none => .error (.err ("Could not find (inner) " ++ p))
    | some (.struct n a fs) => getFieldAux proj root (q :: rest) ⟨n, a, fs⟩
    | some (.turtle _ _ pipe) => getFieldAux proj root (q :: rest) (projectPipeline proj root pipe)
    | some (.atomic _ _ _ _) => .error (.err "Inner segment in path is not a source")

def getField (proj : StructDef → Stage → StructDef) (root src : StructDef)
    (fieldName : String) : Except QError FieldDef :=
  getFieldAux proj root (splitDots fieldName) src

/-- `SourceUtils.fieldDefForQueryFieldDef`. -/
def fieldDefForQueryFieldDef (proj : StructDef → Stage → StructDef)
    (root : StructDef) (field : QueryFieldDef) (source : StructDef) :
    Except QError FieldDef :=
  match field with
  | .path s => getField proj root source s
  | .fan n _ _ => getField proj root source n
  | .defn d => .ok d

/-- `QueryBuilder.sortOrder`: 3 structure, 2 nested query, 1 calculation,
0 dimension. -/
def sortOrder : FieldDef → Nat
  | .struct _ _ _ => 3
  | .turtle _ _ _ => 2
  | .atomic _ _ _ e => if expressionIsCalculation e then 1 else 0

/-- `QueryBuilder.stageAtPath`: iterative descent; a hop whose field is not an
inline turtle raises `NotAStageError` carrying that field. -/
def stageAtPipeline : List (Nat × Nat) → Nat → List Stage → Except QError Stage
  | [], lastIdx, pipe =>
    match pipe[lastIdx]? with
    | some s => .ok s
    | none => .error (.err "stage index out of range")
  | (si, fi) :: rest, lastIdx, pipe =>
    match pipe[si]? with
    | none => .error (.err "stage index out of range")
    | some s =>
      match s.fields[fi]? with
      | none => .error (.err "field index out of range")
      | some (.defn (.turtle _ _ sub)) => stageAtPipeline rest lastIdx sub
      | some f => .error (.notAStage f)

/-- Functional counterpart of mutating the stage object returned by
`stageAtPath`: rebuild the pipeline with the stage at the path replaced.
Where the path does not resolve the pipeline is returned unchanged (those
branches are only reached under a failed `stageAtPipeline`, and every
operation checks that first). -/
def setStageAt : List (Nat × Nat) → Nat → List Stage → Stage → List Stage
  | [], lastIdx, pipe, s => pipe.set lastIdx s
  | (si, fi) :: rest, lastIdx, pipe, s =>
    match pipe[si]? with
    | none => pipe
    | some st =>
      match st.fields[fi]? with
      | some (.defn (.turtle n a sub)) =>
        pipe.set si (st.withFields (st.fields.set fi (.defn (.turtle n a (setStageAt rest lastIdx sub s)))))
      | _ => pipe

/-- `QueryBuilder.sourceForStageAtPath`: project the source through every
stage preceding each hop, descending through inline turtles. -/
def sourceForStageAtPathAux (proj : StructDef → Stage → StructDef) :
    List (Nat × Nat) → Nat → List Stage → StructDef → Except QError StructDef
  | [], lastIdx, pipe, src =>
    if lastIdx ≤ pipe.length then .ok (projectPipeline proj src (pipe.take lastIdx))
    else .error (.err "stage index out of range")
  | (si, fi) :: rest, lastIdx, pipe, src =>
    if si ≤ pipe.length then
      match pipe[si]? with
      | none => .error (.err "stage index out of range")
      | some s =>
        match s.fields[fi]? with
        | some (.defn (.turtle _ _ sub)) =>
          sourceForStageAtPathAux proj rest lastIdx sub (projectPipeline proj src (pipe.take si))
        | some _ => .error (.err "Path does not refer to a stage correctly")
        | none => .error (.err "field index out of range")
    else .error (.err "stage index out of range")

def TurtleDef.withPipeline : TurtleDef → List Stage → TurtleDef
  | ⟨n, a, _⟩, p => ⟨n, a, p⟩

def QueryBuilderState.withPipeline (st : QueryBuilderState) (p : List Stage) :
    QueryBuilderState :=
  ⟨st.source, st.query.withPipeline p⟩

/-- Replace the stage addressed by `p` with `s`. -/
def updateStageAt (st : QueryBuilderState) (p : StagePath) (s : Stage) :
    QueryBuilderState :=
  st.withPipeline (setStageAt p.hops p.last st.query.pipeline s)

attribute [simp] TurtleDef.withPipeline QueryBuilderState.withPipeline

/-- `QueryBuilder.replaceWithDefinition` (with its default `structDef`, the
root source, which is the only way query.ts calls it): the field must be a
bare string, and it is replaced by a (deep copy of the) definition found by
display name among the ROOT source fields. -/
def replaceWithDefinition (st : QueryBuilderState) (p : StagePath)
    (fieldIndex : Nat) : Except QError QueryBuilderState :=
  match stageAtPipeline p.hops p.last st.query.pipeline with
  | .error e => .error e
  | .ok s =>
    match s.fields[fieldIndex]? with
    | some (.path fname) =>
      match findByName st.source.fields fname with
      | some d => .ok (updateStageAt st p (s.withFields (s.fields.set fieldIndex (.defn d))))
      | none => .error (.err "Field is not defined..")
    | _ => .error (.err "Dont deal with this yet")

/-- `QueryBuilder.autoExpandStageAtPath`: try `stageAtPath`; on a
`NotAStageError`, pop the outermost hop of the path, resolve the offending
field against the source at the remaining path, and if it is a turtle,
promote via `replaceWithDefinition` at that remaining path and retry once. -/
def autoExpandStageAtPath (proj : StructDef → Stage → StructDef)
    (st : QueryBuilderState) (p : StagePath) :
    Except QError (QueryBuilderState × Stage) :=
  match stageAtPipeline p.hops p.last st.query.pipeline with
  | .ok s => .ok (st, s)
  | .error (.notAStage fld) =>
    match p.hops with
    | [] => .error (.notAStage fld)
    | (_, f0) :: t =>
      match sourceForStageAtPathAux proj t p.last st.query.pipeline st.source with
      | .error e2 => .error e2
      | .ok src =>
        match fieldDefForQueryFieldDef proj st.source fld src with
        | .error e2 => .error e2
        | .ok (.turtle _ _ _) =>
          match replaceWithDefinition st ⟨t, p.last⟩ f0 with
          | .error e2 => .error e2
          | .ok st1 =>
            match stageAtPipeline p.hops p.last st1.query.pipeline with
            | .ok s1 => .ok (st1, s1)
            | .error e2 => .error e2
        | .ok _ => .error (.notAStage fld)
  | .error e => .error e

/-- `Array.splice(n, 0, a)` semantics: insert at index `n`, clamped to the
end of the list. -/
def spliceInsert : Nat → α → List α → List α
  | 0, a, l => a :: l
  | _ + 1, a, [] => [a]
  | n + 1, a, x :: xs => x :: spliceInsert n a xs

/-- The scan loop of `QueryBuilder.getIndexToInsertNewField`: the first index
whose existing field resolves to a definition of strictly greater rank;
fields that fail to resolve are logged and skipped; falls off the end. -/
def scanInsert (proj : StructDef → Stage → StructDef) (root src : StructDef)
    (r : Nat) : List QueryFieldDef → Nat
  | [] => 0
  | f :: rest =>
    match fieldDefForQueryFieldDef proj root f src with
    | .ok fd => if r < sortOrder fd then 0 else scanInsert proj root src r rest + 1
    | .error _ => scanInsert proj root src r rest + 1

/-- `QueryBuilder.getIndexToInsertNewField`. -/
def getIndexToInsertNewField (proj : StructDef → Stage → StructDef)
    (st : QueryBuilderState) (p : StagePath) (q : QueryFieldDef) :
    Except QError Nat :=
  match stageAtPipeline p.hops p.last st.query.pipeline with
  | .error e => .error e
  | .ok s =>
    match sourceForStageAtPathAux proj p.hops p.last st.query.pipeline st.source with
    | .error e => .error e
    | .ok src =>
      match fieldDefForQueryFieldDef proj st.source q src with
      | .error e => .error e
      | .ok fd => .ok (scanInsert proj st.source src (sortOrder fd) s.fields)

/-- `QueryBuilder.insertField`: auto-expand, compute the insertion index,
splice the new field in. -/
def insertFieldOp (proj : StructDef → Stage → StructDef)
    (st : QueryBuilderState) (p : StagePath) (q : QueryFieldDef) :
    Except QError QueryBuilderState :=
  match autoExpandStageAtPath proj st p with
  | .error e => .error e
  | .ok (st1, s) =>
    match getIndexToInsertNewField proj st1 p q with
    | .error e => .error e
    | .ok i => .ok (updateStageAt st1 p (s.withFields (spliceInsert i q s.fields)))

/-- `QueryBuilder.addField`: insert a bare-name reference. -/
def addFieldOp (proj : StructDef → Stage → StructDef)
    (st : QueryBuilderState) (p : StagePath) (fieldPath : String) :
    Except QError QueryBuilderState :=
  insertFieldOp proj st p (.path fieldPath)

/-- `f === fieldPath` in `getFieldIndex`: only a bare string field can be
strictly equal to the string argument. -/
def isBareMatch (fieldPath : String) : QueryFieldDef → Bool
  | .path s => s == fieldPath
  | _ => false

/-- `order.field === nameOf(field)`: a legacy numeric reference is never
strictly equal to a string. -/
def orderMatchesName (nm : String) (o : OrderByClause) : Bool :=
  match o.field with
  | .byName s => s == nm
  | .byPosition _ => false

/-- The `findIndex` + single `splice` of `removeField`: delete the FIRST
order-by entry whose field equals the display name, if any. -/
def removeFirstOrderBy (ob : List OrderByClause) (nm : String) :
    List OrderByClause :=
  match ob.findIdx? (orderMatchesName nm) with
  | some j => ob.eraseIdx j
  | none => ob

/-- `QueryBuilder.removeField`. On a reduce stage with a non-empty order-by
list, the display name of the field at `fieldIndex` is computed (out of range
raises, as `nameOf(undefined)` would); `findIndex` on an empty order-by list
never runs its callback, so that case deletes the field only. -/
def removeFieldOp (st : QueryBuilderState) (p : StagePath) (fieldIndex : Nat) :
    Except QError QueryBuilderState :=
  match stageAtPipeline p.hops p.last st.query.pipeline with
  | .error e => .error e
  | .ok s =>
    match s.kind, s.orderBy with
    | .reduce, some ob =>
      if ob.isEmpty then
        .ok (updateStageAt st p (s.withFields (s.fields.eraseIdx fieldIndex)))
      else
        match s.fields[fieldIndex]? with
        | none => .error (.err "field index out of range")
        | some f =>
          .ok (updateStageAt st p
            ((s.withOrderBy (some (removeFirstOrderBy ob (nameOfQueryField f)))).withFields
              (s.fields.eraseIdx fieldIndex)))
    | _, _ => .ok (updateStageAt st p (s.withFields (s.fields.eraseIdx fieldIndex)))

/-- `QueryBuilder.toggleField`: auto-expand, then remove a top-level
bare-name match if present, else add the field. -/
def toggleFieldOp (proj : StructDef → Stage → StructDef)
    (st : QueryBuilderState) (p : StagePath) (fieldPath : String) :
    Except QError QueryBuilderState :=
  match autoExpandStageAtPath proj st p with
  | .error e => .error e
  | .ok (st1, _) =>
    match stageAtPipeline p.hops p.last st1.query.pipeline with
    | .error e => .error e
    | .ok s =>
      match s.fields.findIdx? (isBareMatch fieldPath) with
      | some i => removeFieldOp st1 p i
      | none => addFieldOp proj st1 p fieldPath

/-- `QueryBuilder.addFilter`: auto-expand, then append to the stage filter
list. -/
def addFilterOp (proj : StructDef → Stage → StructDef)
    (st : QueryBuilderState) (p : StagePath) (filter : FilterExpression) :
    Except QError QueryBuilderState :=
  match autoExpandStageAtPath proj st p with
  | .error e => .error e
  | .ok (st1, s) =>
    .ok (updateStageAt st1 p (s.withFilterList (some (s.filterList.getD [] ++ [filter]))))

/-- `QueryBuilder.editFilter`. -/
def editFilterOp (st : QueryBuilderState) (p : StagePath)
    (fieldIndex : Option Nat) (filterIndex : Nat) (filter : FilterExpression) :
    Except QError QueryBuilderState :=
  match stageAtPipeline p.hops p.last st.query.pipeline with
  | .error e => .error e
  | .ok s =>
    match fieldIndex with
    | none =>
      match s.filterList with
      | none => .error (.err "Stage has no filters.")
      | some l => .ok (updateStageAt st p (s.withFilterList (some (l.set filterIndex filter))))
    | some fi =>
      match s.fields[fi]? with
      | none => .error (.err "field index out of range")
      | some (.fan n a fl) =>
        match fl with
        | none => .error (.err "Field has no filters")
        | some l =>
          .ok (updateStageAt st p (s.withFields (s.fields.set fi (.fan n a (some (l.set filterIndex filter))))))
      | some _ => .error (.err "Cannot edit filter on non FAN.")

/-- `QueryBuilder.removeFilter`. Stage-level removal (no field index) splices
at `filterIndex`; the field-level branch on a `FilteredAliasedName` splices at
`fieldIndex` (the code passes `fieldIndex`, not `filterIndex`, to the splice),
through an optional chain that is a no-op when the field has no filter list. -/
def removeFilterOp (st : QueryBuilderState) (p : StagePath)
    (filterIndex : Nat) (fieldIndex : Option Nat) :
    Except QError QueryBuilderState :=
  match stageAtPipeline p.hops p.last st.query.pipeline with
  | .error e => .error e
  | .ok s =>
    match fieldIndex with
    | none =>
      match s.filterList with
      | some l => .ok (updateStageAt st p (s.withFilterList (some (l.eraseIdx filterIndex))))
      | none => .ok st
    | some fi =>
      match s.fields[fi]? with
      | none => .error (.err "field index out of range")
      | some (.fan n a fl) =>
        .ok (updateStageAt st p (s.withFields (s.fields.set fi (.fan n a (fl.map (fun l => l.eraseIdx fi))))))
      | some _ => .ok st

/-- `QueryBuilder.addLimit`: auto-expand, require a reduce stage, set the
limit, and when a by-field is given replace the whole order-by list by a
single entry referencing its dotted path. -/
def addLimitOp (proj : StructDef → Stage → StructDef)
    (st : QueryBuilderState) (p : StagePath) (limit : Nat)
    (byField : Option SchemaField) (direction : Option OrderDirection) :
    Except QError QueryBuilderState :=
  match autoExpandStageAtPath proj st p with
  | .error e => .error e
  | .ok (st1, s) =>
    match s.kind with
    | .reduce =>
      let s1 := s.withLimit (some limit)
      match byField with
      | some b => .ok (updateStageAt st1 p (s1.withOrderBy (some [⟨.byName b.path, direction⟩])))
      | none => .ok (updateStageAt st1 p s1)
    | _ => .error (.err "Dont know how to handle this yet")

/-- `QueryBuilder.addOrderBy`: auto-expand, require reduce, push an entry
referencing the display name of the field at `byFieldIndex`. -/
def addOrderByOp (proj : StructDef → Stage → StructDef)
    (st : QueryBuilderState) (p : StagePath) (byFieldIndex : Nat)
    (direction : Option OrderDirection) : Except QError QueryBuilderState :=
  match autoExpandStageAtPath proj st p with
  | .error e => .error e
  | .ok (st1, s) =>
    match s.kind with
    | .reduce =>
      match s.fields[byFieldIndex]? with
      | none => .error (.err "field index out of range")
      | some f =>
        .ok (updateStageAt st1 p
          (s.withOrderBy (some (s.orderBy.getD [] ++ [⟨.byName (nameOfQueryField f), direction⟩]))))
    | _ => .error (.err "Dont know how to handle this yet")

/-- `QueryBuilder.editOrderBy`: replace the direction of the entry at
`orderByIndex`, keeping its field. -/
def editOrderByOp (st : QueryBuilderState) (p : StagePath)
    (orderByIndex : Nat) (direction : Option OrderDirection) :
    Except QError QueryBuilderState :=
  match stageAtPipeline p.hops p.last st.query.pipeline with
  | .error e => .error e
  | .ok s =>
    match s.kind with
    | .reduce =>
      let ob := s.orderBy.getD []
      match ob[orderByIndex]? with
      | none => .error (.err "order by index out of range")
      | some o => .ok (updateStageAt st p (s.withOrderBy (some (ob.set orderByIndex ⟨o.field, direction⟩))))
    | _ => .error (.err "Dont know how to handle this yet")

/-- `QueryBuilder.removeLimit` (no reduce check in the source). -/
def removeLimitOp (st : QueryBuilderState) (p : StagePath) :
    Except QError QueryBuilderState :=
  match stageAtPipeline p.hops p.last st.query.pipeline with
  | .error e => .error e
  | .ok s => .ok (updateStageAt st p (s.withLimit none))

/-- `QueryBuilder.removeOrderBy`. -/
def removeOrderByOp (st : QueryBuilderState) (p : StagePath)
    (orderingIndex : Nat) : Except QError QueryBuilderState :=
  match stageAtPipeline p.hops p.last st.query.pipeline with
  | .error e => .error e
  | .ok s =>
    match s.kind with
    | .reduce =>
      match s.orderBy with
      | some ob => .ok (updateStageAt st p (s.withOrderBy (some (ob.eraseIdx orderingIndex))))
      | none => .ok st
    | _ => .error (.err "Dont know how to handle this yet")

/-- `order.map((i) => stage.fields[i])`, failing on an out-of-range index
(which in TypeScript silently produces an `undefined` hole instead). -/
def selectFields (l : List QueryFieldDef) : List Nat → Option (List QueryFieldDef)
  | [] => some []
  | i :: rest =>
    match l[i]? with
    | none => none
    | some f =>
      match selectFields l rest with
      | none => none
      | some out => some (f :: out)

/-- `QueryBuilder.reorderFields`. -/
def reorderFieldsOp (st : QueryBuilderState) (p : StagePath)
    (order : List Nat) : Except QError QueryBuilderState :=
  match stageAtPipeline p.hops p.last st.query.pipeline with
  | .error e => .error e
  | .ok s =>
    match selectFields s.fields order with
    | none => .error (.err "field index out of range")
    | some newFields => .ok (updateStageAt st p (s.withFields newFields))

/-- Rewrite every order-by entry naming `nm` to name `newName`
(the forEach in `renameField`). -/
def renameOrderBy (nm newName : String) (ob : List OrderByClause) :
    List OrderByClause :=
  ob.map (fun o => if orderMatchesName nm o then ⟨.byName newName, o.dir⟩ else o)

/-- `QueryBuilder.renameField`: requires a reduce stage; rewrites matching
order-by entries to the new alias, then sets the alias (promoting a bare name
to a `FilteredAliasedName` with no filter list). -/
def renameFieldOp (st : QueryBuilderState) (p : StagePath)
    (fieldIndex : Nat) (newName : String) : Except QError QueryBuilderState :=
  match stageAtPipeline p.hops p.last st.query.pipeline with
  | .error e => .error e
  | .ok s =>
    match s.kind with
    | .reduce =>
      match s.fields[fieldIndex]? with
      | none => .error (.err "field index out of range")
      | some f =>
        let nm := nameOfQueryField f
        let s1 := match s.orderBy with
          | some ob => s.withOrderBy (some (renameOrderBy nm newName ob))
          | none => s
        let f1 : QueryFieldDef := match f with
          | .path q => .fan q (some newName) none
          | .fan q _ fl => .fan q (some newName) fl
          | .defn d => .defn (d.withAsName (some newName))
        .ok (updateStageAt st p (s1.withFields (s1.fields.set fieldIndex f1)))
    | _ => .error (.err "Dont know how to handle this yet")

/-- The blank stage pushed by `addStage` / reinserted by `removeStage`. -/
def emptyReduceStage : Stage := .mk .reduce [] none none none none

/-- `QueryBuilder.addStage`: with no path, push an empty reduce stage onto the
root pipeline; with a path and field index, the field must resolve to a
turtle (a bare string is first promoted via `replaceWithDefinition`; a
`FilteredAliasedName` makes `replaceWithDefinition` raise), then an empty
reduce stage is pushed onto that nested pipeline. -/
def addStageOp (proj : StructDef → Stage → StructDef)
    (st : QueryBuilderState) (p : Option StagePath) (fieldIndex : Option Nat) :
    Except QError QueryBuilderState :=
  match p with
  | none => .ok (st.withPipeline (st.query.pipeline ++ [emptyReduceStage]))
  | some p =>
    match stageAtPipeline p.hops p.last st.query.pipeline with
    | .error e => .error e
    | .ok parentStage =>
      match fieldIndex with
      | none => .error (.err "fieldIndex must be provided if stagePath is")
      | some fi =>
        match parentStage.fields[fi]? with
        | none => .error (.err "field index out of range")
        | some field =>
          match sourceForStageAtPathAux proj p.hops p.last st.query.pipeline st.source with
          | .error e => .error e
          | .ok src =>
            match fieldDefForQueryFieldDef proj st.source field src with
            | .error e => .error e
            | .ok (.turtle _ _ _) =>
              match field with
              | .path _ =>
                match replaceWithDefinition st p fi with
                | .error e => .error e
                | .ok st1 =>
                  match stageAtPipeline p.hops p.last st1.query.pipeline with
                  | .error e => .error e
                  | .ok parent1 =>
                    match parent1.fields[fi]? with
                    | some (.defn (.turtle n a sub)) =>
                      .ok (updateStageAt st1 p
                        (parent1.withFields (parent1.fields.set fi (.defn (.turtle n a (sub ++ [emptyReduceStage]))))))
                    | _ => .error (.err "pipeline push on non turtle")
              | .fan _ _ _ => .error (.err "Dont deal with this yet")
              | .defn (.turtle n a sub) =>
                .ok (updateStageAt st p
                  (parentStage.withFields (parentStage.fields.set fi (.defn (.turtle n a (sub ++ [emptyReduceStage]))))))
              | .defn _ => .error (.err "pipeline push on non turtle")
            | .ok _ => .error (.err "Invalid field to add stage to.")

/-- `QueryBuilder.removeStage`: `stagePathParent` splits off the final stage
index; at the root (or inside the addressed turtle field) the stage is
spliced out and, if the pipeline became empty, one empty reduce stage is
pushed back immediately. -/
def removeStageOp (st : QueryBuilderState) (p : StagePath) :
    Except QError QueryBuilderState :=
  match p.hops.getLast? with
  | none =>
    let pipe := st.query.pipeline.eraseIdx p.last
    .ok (st.withPipeline (if pipe.isEmpty then [emptyReduceStage] else pipe))
  | some (si, fi) =>
    let parentPath : StagePath := ⟨p.hops.dropLast, si⟩
    match stageAtPipeline parentPath.hops parentPath.last st.query.pipeline with
    | .error e => .error e
    | .ok parentStage =>
      match parentStage.fields[fi]? with
      | none => .error (.err "field index out of range")
      | some (.defn (.turtle n a sub)) =>
        let sub1 := sub.eraseIdx p.last
        let sub2 := if sub1.isEmpty then [emptyReduceStage] else sub1
        .ok (updateStageAt st parentPath
          (parentStage.withFields (parentStage.fields.set fi (.defn (.turtle n a sub2)))))
      | some _ => .error (.err "Invalid field to add stage to.")

/-- One step of the `loadQuery` merge at a stage index present in both
pipelines: both stages must be reduce; grouping replaces grouping (clearing
order-by) and vice versa; filters are appended when their source text is not
already present; a (truthy) loaded limit overwrites; loaded fields are
prepended and existing fields with a colliding display name are dropped. -/
def mergeStageTotal (c l : Stage) : Stage :=
  let c1 := match l.byClause with
    | some b => (c.withByClause (some b)).withOrderBy none
    | none => c
  let c2 := match l.filterList with
    | some fl =>
      c1.withFilterList
        (some (c1.filterList.getD [] ++
          fl.filter (fun (f : FilterExpression) =>
            !((c1.filterList.getD []).any (fun (e : FilterExpression) => e.code == f.code)))))
    | none => c1
  let c3 := match l.limit with
    | some n => if n ≠ 0 then c2.withLimit (some n) else c2
    | none => c2
  let c4 := match l.orderBy with
    | some ob => (c3.withOrderBy (some ob)).withByClause none
    | none => c3
  c4.withFields
    (l.fields ++ c4.fields.filter (fun f => !(l.fields.any (fun g => nameOfQueryField g == nameOfQueryField f))))

def mergeStage (c l : Stage) : Except QError Stage :=
  match c.kind, l.kind with
  | .reduce, .reduce => .ok (mergeStageTotal c l)
  | _, _ => .error (.err "Cannot load query with non-reduce stages")

/-- The `forEach` of `loadQuery`: loaded stages are merged pairwise with the
existing ones; loaded stages beyond the current length are copied verbatim;
existing stages beyond the loaded length are retained. (In TypeScript the
merge mutates in place, so a conflict thrown mid-loop leaves earlier indexes
merged; this embedding returns the error without the partial state — the
claims below concern only whether the error occurs and the success result.) -/
def mergePipelines : List Stage → List Stage → Except QError (List Stage)
  | cur, [] => .ok cur
  | [], l :: ls =>
    match mergePipelines [] ls with
    | .error e => .error e
    | .ok rest => .ok (l :: rest)
  | c :: cs, l :: ls =>
    match mergeStage c l with
    | .error e => .error e
    | .ok m =>
      match mergePipelines cs ls with
      | .error e => .error e
      | .ok rest => .ok (m :: rest)

/-- `QueryBuilder.loadQuery`: resolve the dotted path against the root
source; it must be a turtle; merge its pipeline into the current one and take
its display name. -/
def loadQueryOp (proj : StructDef → Stage → StructDef)
    (st : QueryBuilderState) (queryPath : String) :
    Except QError QueryBuilderState :=
  match getField proj st.source st.source queryPath with
  | .error e => .error e
  | .ok (.turtle dn da dp) =>
    match mergePipelines st.query.pipeline dp with
    | .error e => .error e
    | .ok pipe => .ok ⟨st.source, ⟨da.getD dn, none, pipe⟩⟩
  | .ok _ => .error (.err "Path does not refer to query.")

/-- `QueryBuilder.replaceQuery`: replace the whole tree; if the current tree
is a single field-less stage, its filters are prepended onto the new first
stage. An empty replacement pipeline raises (reading `pipeline[0]`) before
any state change. -/
def replaceQueryOp (st : QueryBuilderState) (t : TurtleDef) :
    Except QError QueryBuilderState :=
  let filters :=
    match st.query.pipeline with
    | [s] => if s.fields.isEmpty then s.filterList.getD [] else []
    | _ => []
  match t.pipeline with
  | [] => .error (.err "pipeline is empty")
  | s0 :: rest =>
    .ok ⟨st.source,
      ⟨t.asName.getD t.name, none,
        s0.withFilterList (some (filters ++ s0.filterList.getD [])) :: rest⟩⟩

/-- `QueryBuilder.canRun`: the first stage has at least one field. -/
def canRun (st : QueryBuilderState) : Bool :=
  match st.query.pipeline with
  | s :: _ => !s.fields.isEmpty
  | [] => false

/-- The renderer token stream of query.ts: literal strings plus the INDENT,
NEWLINE and OUTDENT layout markers. -/
inductive Fragment where
  | str (s : String)
  | newline
  | indent
  | outdent
deriving DecidableEq, Repr

def TAB_WIDTH : Nat := 2

def indentString (n : Nat) : String := String.mk (List.replicate (n * TAB_WIDTH) ' ')

/-- One step of `codeFromFragments`: state is (code so far, indent depth,
isStartOfLine). OUTDENT below zero cannot occur on the balanced streams the
writer produces (TypeScript would go negative and crash on repeat). -/
def renderStep : String × Nat × Bool → Fragment → String × Nat × Bool
  | (code, ind, _), .newline => (code ++ "\n", ind, true)
  | (code, ind, start), .indent => (code, ind + 1, start)
  | (code, ind, start), .outdent => (code, ind - 1, start)
  | (code, ind, start), .str s =>
    if start then (code ++ indentString ind ++ s, ind, false)
    else (code ++ s, ind, false)

def renderFragments (frags : List Fragment) (st : String × Nat × Bool) :
    String × Nat × Bool :=
  frags.foldl renderStep st

/-- `codeFromFragments`. -/
def codeFromFragments (frags : List Fragment) : String :=
  (renderFragments frags ("", 0, true)).1

/-- The indexed loop of `QueryWriter.getFiltersString`: each predicate code,
a comma after every one but the last, a newline after each. -/
def filtersLoopFragments : List FilterExpression → List Fragment
  | [] => []
  | [f] => [.str f.code, .newline]
  | f :: g :: rest => [.str f.code, .str ",", .newline] ++ filtersLoopFragments (g :: rest)

/-- `QueryWriter.getFiltersString`: a single space before a lone predicate,
otherwise a newline and an indented block closed by an outdent. -/
def getFiltersString (filterList : List FilterExpression) : List Fragment :=
  (if filterList.length == 1 then [Fragment.str " "]
   else [Fragment.newline, Fragment.indent])
    ++ filtersLoopFragments filterList
    ++ (if filterList.length > 1 then [Fragment.outdent] else [])

/-- The filter block shape the spec asserts (one predicate per line at the
given indent, comma-separated except after the last); compared against the
fragments the source emits. -/
def whereLines (ind : Nat) : List FilterExpression → String
  | [] => ""
  | [f] => indentString ind ++ f.code ++ "\n"
  | f :: g :: rest => indentString ind ++ f.code ++ ",\n" ++ whereLines ind (g :: rest)

mutual
/-- Well-formedness of a schema field: every nested-query pipeline anywhere
inside it is non-empty. -/
def fdWF : FieldDef → Bool
  | .struct _ _ fs => fdListWF fs
  | .turtle _ _ pipe => !pipe.isEmpty && stageListWF pipe
  | .atomic _ _ _ _ => true

def qfdWF : QueryFieldDef → Bool
  | .path _ => true
  | .fan _ _ _ => true
  | .defn d => fdWF d

def stageWF : Stage → Bool
  | .mk _ fs _ _ _ _ => qfdListWF fs

def fdListWF : List FieldDef → Bool
  | [] => true
  | f :: fs => fdWF f && fdListWF fs

def qfdListWF : List QueryFieldDef → Bool
  | [] => true
  | f :: fs => qfdWF f && qfdListWF fs

def stageListWF : List Stage → Bool
  | [] => true
  | s :: ss => stageWF s && stageListWF ss
end

/-- The pipeline invariant of the spec: the root pipeline is non-empty and so
is the pipeline of every nested query in the tree. -/
def treeWF (q : TurtleDef) : Bool :=
  !q.pipeline.isEmpty && stageListWF q.pipeline

/-- Schema well-formedness: every nested query in the schema has a non-empty
pipeline (recursively). -/
def schemaWF (s : StructDef) : Bool :=
  fdListWF s.fields

/-- The external schema algebra produces well-formed schemas from well-formed
ones. -/
def ProjWF (proj : StructDef → Stage → StructDef) : Prop :=
  ∀ s stage, schemaWF s = true → schemaWF (proj s stage) = true

/-- The editor operations of the spec (section 4.2), as a syntax of commands
so that sequences of operations can be quantified over. -/
inductive EditOp where
  | addField (p : StagePath) (fieldPath : String)
  | toggleField (p : StagePath) (fieldPath : String)
  | removeField (p : StagePath) (fieldIndex : Nat)
  | reorderFields (p : StagePath) (order : List Nat)
  | renameField (p : StagePath) (fieldIndex : Nat) (newName : String)
  | addFilter (p : StagePath) (filter : FilterExpression)
  | editFilter (p : StagePath) (fieldIndex : Option Nat) (filterIndex : Nat) (filter : FilterExpression)
  | removeFilter (p : StagePath) (filterIndex : Nat) (fieldIndex : Option Nat)
  | addLimit (p : StagePath) (limit : Nat) (byField : Option SchemaField) (direction : Option OrderDirection)
  | removeLimit (p : StagePath)
  | addOrderBy (p : StagePath) (byFieldIndex : Nat) (direction : Option OrderDirection)
  | editOrderBy (p : StagePath) (orderByIndex : Nat) (direction : Option OrderDirection)
  | removeOrderBy (p : StagePath) (orderingIndex : Nat)
  | addStage (p : Option StagePath) (fieldIndex : Option Nat)
  | removeStage (p : StagePath)
  | loadQuery (queryPath : String)
  | replaceQuery (t : TurtleDef)

/-- Dispatch an operation to its implementation. -/
def runEditOp (proj : StructDef → Stage → StructDef) (op : EditOp)
    (st : QueryBuilderState) : Except QError QueryBuilderState :=
  match op with
  | .addField p fp => addFieldOp proj st p fp
  | .toggleField p fp => toggleFieldOp proj st p fp
  | .removeField p i => removeFieldOp st p i
  | .reorderFields p o => reorderFieldsOp st p o
  | .renameField p i nm => renameFieldOp st p i nm
  | .addFilter p f => addFilterOp proj st p f
  | .editFilter p fi idx f => editFilterOp st p fi idx f
  | .removeFilter p idx fi => removeFilterOp st p idx fi
  | .addLimit p n b d => addLimitOp proj st p n b d
  | .removeLimit p => removeLimitOp st p
  | .addOrderBy p i d => addOrderByOp proj st p i d
  | .editOrderBy p i d => editOrderByOp st p i d
  | .removeOrderBy p i => removeOrderByOp st p i
  | .addStage p fi => addStageOp proj st p fi
  | .removeStage p => removeStageOp st p
  | .loadQuery qp => loadQueryOp proj st qp
  | .replaceQuery t => replaceQueryOp st t

/-- A thrown error leaves the builder state unchanged (the callers of the
editor catch and surface errors; the tree keeps its previous value). -/
def applyEditOp (proj : StructDef → Stage → StructDef) (op : EditOp)
    (st : QueryBuilderState) : QueryBuilderState :=
  match runEditOp proj op st with
  | .ok st1 => st1
  | .error _ => st

def applyEditOps (proj : StructDef → Stage → StructDef) (ops : List EditOp)
    (st : QueryBuilderState) : QueryBuilderState :=
  ops.foldl (fun s op => applyEditOp proj op s) st

/-- Argument well-formedness for an operation: only `replaceQuery` carries a
whole tree whose nested pipelines must be non-empty. -/
def editOpWF : EditOp → Bool
  | .replaceQuery t => stageListWF t.pipeline
  | _ => true

def editOpsWF (ops : List EditOp) : Bool :=
  ops.all editOpWF

/-- Pairwise total merge (both stages assumed reduce): present at both
indexes merge, otherwise the present side is kept. Specification-side
companion of `mergePipelines`. -/
def zipMergeTotal : List Stage → List Stage → List Stage
  | cur, [] => cur
  | [], l :: ls => l :: zipMergeTotal [] ls
  | c :: cs, l :: ls => mergeStageTotal c l :: zipMergeTotal cs ls

/-- The source texts of a filter list (identity of a filter for the purposes
of the loadQuery dedup). -/
def filterCodes (l : List FilterExpression) : List String :=
  l.map (fun f => f.code)

/-- A trivial instance of the external schema algebra, used to run the
embedding on concrete inputs. -/
def projId : StructDef → Stage → StructDef := fun s _ => s

/-- The stage path of the root pipeline head. -/
def rootPath : StagePath := ⟨[], 0⟩

def exAge : FieldDef := .atomic "age" none "age" .scalar

def exTotal : FieldDef := .atomic "total" none "count()" .aggregate

def exStage (fs : List QueryFieldDef) : Stage := .mk .reduce fs none none none none

/-- Schema holding a two-stage named query, a dimension and a calculation. -/
def exSourceQ : StructDef :=
  ⟨"s", none, [.turtle "q" none [exStage [.path "age"], exStage []], exAge, exTotal]⟩

/-- A builder whose current tree already has two (reduce) stages. -/
def exStateC1 : QueryBuilderState :=
  ⟨exSourceQ, ⟨"new_query", none, [exStage [], exStage []]⟩⟩

/-- A stage whose order-by list references the display name of its only field
twice. -/
def exStateC2 : QueryBuilderState :=
  ⟨⟨"s", none, []⟩,
    ⟨"q", none,
      [.mk .reduce [.path "a"] none none
        (some [⟨.byName "a", none⟩, ⟨.byName "a", none⟩]) none]⟩⟩

/-- A stage holding a calculation before a dimension. -/
def exStateC3 : QueryBuilderState :=
  ⟨⟨"s", none, [exTotal, exAge]⟩,
    ⟨"q", none, [exStage [.path "total", .path "age"]]⟩⟩

/-- Schema with a nested query, and a tree referencing it by bare name. -/
def exSourceC4 : StructDef :=
  ⟨"s", none, [.turtle "nested" none [exStage [.path "age"]], exAge]⟩

def exStateC4 : QueryBuilderState :=
  ⟨exSourceC4, ⟨"q", none, [exStage [.path "nested"]]⟩⟩

def exStateC5 : QueryBuilderState :=
  ⟨⟨"s", none, [exAge, exTotal]⟩, ⟨"q", none, [exStage [.path "total"]]⟩⟩

/-- The stage 0 of the named query by_region: one field, one filter and a
limit. -/
def exC6loaded : Stage :=
  .mk .reduce [.path "age"] (some [⟨"age > 1"⟩]) (some 10) none none

/-- The current stage 0 it is merged into: its own field and filter, no
limit. -/
def exC6cur : Stage :=
  .mk .reduce [.path "total"] (some [⟨"total > 0"⟩]) none none none

/-- Named query by_region with a limit and a filter, next to a tree whose
stage 0 has its own filter and fields but no limit. -/
def exSourceC6 : StructDef :=
  ⟨"s", none, [.turtle "by_region" none [exC6loaded], exAge, exTotal]⟩

def exStateC6 : QueryBuilderState :=
  ⟨exSourceC6, ⟨"new_query", none, [exC6cur]⟩⟩

def exStateC7 : QueryBuilderState :=
  ⟨⟨"s", none, [exAge, exTotal]⟩, ⟨"q", none, [exStage []]⟩⟩

/-- A stage whose only field is a refined name with two private filters, and
which carries one stage-level filter. -/
def exStateC9 : QueryBuilderState :=
  ⟨⟨"s", none, []⟩,
    ⟨"q", none,
      [.mk .reduce [.fan "x" none (some [⟨"f0"⟩, ⟨"f1"⟩])]
        (some [⟨"g0"⟩, ⟨"g1"⟩]) none none none]⟩⟩

/-- A reduce stage with a pre-existing order-by list. -/
def exStateC10 : QueryBuilderState :=
  ⟨⟨"s", none, [exAge]⟩,
    ⟨"q", none,
      [.mk .reduce [.path "age"] none none (some [⟨.byName "age", none⟩]) none]⟩⟩

theorem Stage.kind_mk (k f fl l ob b) : (Stage.mk k f fl l ob b).kind = k := rfl

theorem Stage.fields_mk (k f fl l ob b) : (Stage.mk k f fl l ob b).fields = f := rfl

theorem Stage.filterList_mk (k f fl l ob b) :
    (Stage.mk k f fl l ob b).filterList = fl := rfl

theorem Stage.limit_mk (k f fl l ob b) : (Stage.mk k f fl l ob b).limit = l := rfl

theorem Stage.orderBy_mk (k f fl l ob b) :
    (Stage.mk k f fl l ob b).orderBy = ob := rfl

theorem Stage.byClause_mk (k f fl l ob b) :
    (Stage.mk k f fl l ob b).byClause = b := rfl

theorem Stage.withFields_mk (k f fl l ob b f2) :
    (Stage.mk k f fl l ob b).withFields f2 = Stage.mk k f2 fl l ob b := rfl

theorem Stage.withFilterList_mk (k f fl l ob b fl2) :
    (Stage.mk k f fl l ob b).withFilterList fl2 = Stage.mk k f fl2 l ob b := rfl

theorem Stage.withLimit_mk (k f fl l ob b l2) :
    (Stage.mk k f fl l ob b).withLimit l2 = Stage.mk k f fl l2 ob b := rfl

theorem Stage.withOrderBy_mk (k f fl l ob b ob2) :
    (Stage.mk k f fl l ob b).withOrderBy ob2 = Stage.mk k f fl l ob2 b := rfl

theorem Stage.withByClause_mk (k f fl l ob b b2) :
    (Stage.mk k f fl l ob b).withByClause b2 = Stage.mk k f fl l ob b2 := rfl

attribute [simp] Stage.kind_mk Stage.fields_mk Stage.filterList_mk
  Stage.limit_mk Stage.orderBy_mk Stage.byClause_mk Stage.withFields_mk
  Stage.withFilterList_mk Stage.withLimit_mk Stage.withOrderBy_mk
  Stage.withByClause_mk

theorem stageListWF_iff {l : List Stage} :
    stageListWF l = true ↔ ∀ s ∈ l, stageWF s = true := by
  induction l with
  | nil => simp [stageListWF]
  | cons s ss ih => simp [stageListWF, Bool.and_eq_true, ih]

theorem qfdListWF_iff {l : List QueryFieldDef} :
    qfdListWF l = true ↔ ∀ f ∈ l, qfdWF f = true := by
  induction l with
  | nil => simp [qfdListWF]
  | cons f fs ih => simp [qfdListWF, Bool.and_eq_true, ih]

theorem fdListWF_iff {l : List FieldDef} :
    fdListWF l = true ↔ ∀ f ∈ l, fdWF f = true := by
  induction l with
  | nil => simp [fdListWF]
  | cons f fs ih => simp [fdListWF, Bool.and_eq_true, ih]

theorem stageWF_fields {s : Stage} :
    stageWF s = true ↔ qfdListWF s.fields = true := by
  cases s with
  | mk k fs fl l ob b => simp [stageWF]

theorem setStageAt_length (hops : List (Nat × Nat)) (lastIdx : Nat)
    (pipe : List Stage) (s : Stage) :
    (setStageAt hops lastIdx pipe s).length = pipe.length := by
  induction hops generalizing pipe with
  | nil => simp [setStageAt]
  | cons h t ih =>
    obtain ⟨si, fi⟩ := h
    simp only [setStageAt]
    split
    · rfl
    · split
      · simp
      · rfl

theorem stageWF_withFields {s : Stage} {fs : List QueryFieldDef} :
    stageWF (s.withFields fs) = qfdListWF fs := by
  cases s with
  | mk k f fl l ob b => simp [stageWF]

theorem stageWF_withFilterList {s : Stage} {fl : Option (List FilterExpression)} :
    stageWF (s.withFilterList fl) = stageWF s := by
  cases s with
  | mk k f fl0 l ob b => simp [stageWF]

theorem stageWF_withLimit {s : Stage} {l : Option Nat} :
    stageWF (s.withLimit l) = stageWF s := by
  cases s with
  | mk k f fl l0 ob b => simp [stageWF]

theorem stageWF_withOrderBy {s : Stage} {ob : Option (List OrderByClause)} :
    stageWF (s.withOrderBy ob) = stageWF s := by
  cases s with
  | mk k f fl l ob0 b => simp [stageWF]

theorem stageWF_withByClause {s : Stage} {b : Option String} :
    stageWF (s.withByClause b) = stageWF s := by
  cases s with
  | mk k f fl l ob b0 => simp [stageWF]

theorem fdWF_withAsName {d : FieldDef} {a : Option String} :
    fdWF (d.withAsName a) = fdWF d := by
  cases d <;> simp [FieldDef.withAsName, fdWF]

/-- Bound extraction for optional indexing. -/
theorem getElem?_some_lt {α : Type _} {l : List α} {n : Nat} {a : α}
    (h : l[n]? = some a) : n < l.length :=
  (List.getElem?_eq_some.mp h).1

/-- A stage reachable through a (well-formed) pipeline is well-formed. -/
theorem stageAtPipeline_wf (hops : List (Nat × Nat)) (lastIdx : Nat)
    (pipe : List Stage) (s : Stage)
    (hwf : stageListWF pipe = true)
    (h : stageAtPipeline hops lastIdx pipe = .ok s) : stageWF s = true := by
  induction hops generalizing pipe with
  | nil =>
    simp only [stageAtPipeline] at h
    split at h
    · cases h
      rename_i hg
      exact stageListWF_iff.mp hwf _ (List.getElem?_mem hg)
    · cases h
  | cons hd t ih =>
    obtain ⟨si, fi⟩ := hd
    simp only [stageAtPipeline] at h
    split at h
    · cases h
    · rename_i st hg
      split at h
      · cases h
      · rename_i n a sub hf
        have hstw : stageWF st = true := stageListWF_iff.mp hwf _ (List.getElem?_mem hg)
        have hfw : qfdWF (.defn (.turtle n a sub)) = true :=
          qfdListWF_iff.mp (stageWF_fields.mp hstw) _ (List.getElem?_mem hf)
        have hsub : stageListWF sub = true := by
          simp [qfdWF, fdWF, Bool.and_eq_true] at hfw
          exact hfw.2
        exact ih sub hsub h
      · cases h

/-- Replacing the stage at a resolvable path, then reading it back, yields
the replacement. -/
theorem stageAtPipeline_setStageAt (hops : List (Nat × Nat)) (lastIdx : Nat)
    (pipe : List Stage) (s s2 : Stage)
    (h : stageAtPipeline hops lastIdx pipe = .ok s) :
    stageAtPipeline hops lastIdx (setStageAt hops lastIdx pipe s2) = .ok s2 := by
  induction hops generalizing pipe with
  | nil =>
    simp only [stageAtPipeline] at h
    split at h
    · rename_i hg
      cases h
      have hlt : lastIdx < pipe.length := getElem?_some_lt hg
      simp [setStageAt, stageAtPipeline, List.getElem?_set_self hlt]
    · cases h
  | cons hd t ih =>
    obtain ⟨si, fi⟩ := hd
    simp only [stageAtPipeline] at h
    split at h
    · cases h
    · rename_i st hg
      split at h
      · cases h
      · rename_i n a sub hf
        have hsi : si < pipe.length := getElem?_some_lt hg
        have hfi : fi < st.fields.length := getElem?_some_lt hf
        simp only [setStageAt, hg, hf]
        simp only [stageAtPipeline, List.getElem?_set_self hsi]
        cases st with
        | mk k fs fl l ob b =>
          simp only [Stage.withFields, Stage.fields] at *
          simp only [List.getElem?_set_self hfi]
          exact ih sub h
      · cases h

theorem qfdListWF_set {l : List QueryFieldDef} {i : Nat} {f : QueryFieldDef}
    (hwf : qfdListWF l = true) (hf : qfdWF f = true) :
    qfdListWF (l.set i f) = true := by
  refine qfdListWF_iff.mpr (fun g hg => ?_)
  rcases List.mem_or_eq_of_mem_set hg with hmem | rfl
  · exact qfdListWF_iff.mp hwf _ hmem
  · exact hf

theorem stageListWF_set {l : List Stage} {i : Nat} {s : Stage}
    (hwf : stageListWF l = true) (hs : stageWF s = true) :
    stageListWF (l.set i s) = true := by
  refine stageListWF_iff.mpr (fun g hg => ?_)
  rcases List.mem_or_eq_of_mem_set hg with hmem | rfl
  · exact stageListWF_iff.mp hwf _ hmem
  · exact hs

/-- Replacing a stage through a path with a well-formed one preserves
well-formedness of the whole pipeline forest. -/
theorem setStageAt_wf (hops : List (Nat × Nat)) (lastIdx : Nat)
    (pipe : List Stage) (s2 : Stage)
    (hwf : stageListWF pipe = true) (hs2 : stageWF s2 = true) :
    stageListWF (setStageAt hops lastIdx pipe s2) = true := by
  induction hops generalizing pipe with
  | nil => exact stageListWF_set hwf hs2
  | cons hd t ih =>
    obtain ⟨si, fi⟩ := hd
    simp only [setStageAt]
    split
    · exact hwf
    · rename_i st hg
      split
      · rename_i n a sub hf
        have hstw : stageWF st = true := stageListWF_iff.mp hwf _ (List.getElem?_mem hg)
        have hfw : qfdWF (.defn (.turtle n a sub)) = true :=
          qfdListWF_iff.mp (stageWF_fields.mp hstw) _ (List.getElem?_mem hf)
        have hsubwf : stageListWF sub = true ∧ sub.isEmpty = false := by
          simp [qfdWF, fdWF, Bool.and_eq_true] at hfw
          exact ⟨hfw.2, by simpa using hfw.1⟩
        have hsub2 : stageListWF (setStageAt t lastIdx sub s2) = true := ih sub hsubwf.1
        refine stageListWF_set hwf ?_
        rw [stageWF_withFields]
        refine qfdListWF_set (stageWF_fields.mp hstw) ?_
        have hne : (setStageAt t lastIdx sub s2).isEmpty = false := by
          have hlen := setStageAt_length t lastIdx sub s2
          have : sub ≠ [] := by
            intro hcon
            rw [hcon] at hsubwf
            simp [List.isEmpty] at hsubwf
          cases hcase : setStageAt t lastIdx sub s2 with
          | nil =>
            exfalso
            apply this
            have := hlen
            rw [hcase] at this
            exact List.eq_nil_of_length_eq_zero this.symm
          | cons x xs => simp
        simp [qfdWF, fdWF, hne, hsub2]
      · exact hwf

/-- If a path resolves to a stage, the source for that path also resolves. -/
theorem sourceForStageAtPathAux_ok (proj : StructDef → Stage → StructDef)
    (hops : List (Nat × Nat)) (lastIdx : Nat) (pipe : List Stage)
    (src : StructDef) (s : Stage)
    (h : stageAtPipeline hops lastIdx pipe = .ok s) :
    ∃ src1, sourceForStageAtPathAux proj hops lastIdx pipe src = .ok src1 := by
  induction hops generalizing pipe src with
  | nil =>
    simp only [stageAtPipeline] at h
    split at h
    · rename_i hg
      have hlt := getElem?_some_lt hg
      refine ⟨projectPipeline proj src (pipe.take lastIdx), ?_⟩
      simp [sourceForStageAtPathAux, Nat.le_of_lt hlt]
    · cases h
  | cons hd t ih =>
    obtain ⟨si, fi⟩ := hd
    simp only [stageAtPipeline] at h
    split at h
    · cases h
    · rename_i st hg
      split at h
      · cases h
      · rename_i n a sub hf
        have hsi := getElem?_some_lt hg
        obtain ⟨src1, hsrc⟩ := ih sub (projectPipeline proj src (pipe.take si)) h
        refine ⟨src1, ?_⟩
        cases st with
        | mk k fs fl l ob b =>
          simp only [Stage.fields] at hf
          simp [sourceForStageAtPathAux, Nat.le_of_lt hsi, hg, hf, hsrc]
      · cases h

/-- When the plain descent already succeeds, auto-expansion changes nothing. -/
theorem autoExpand_of_stageAt_ok (proj : StructDef → Stage → StructDef)
    (st : QueryBuilderState) (p : StagePath) (s : Stage)
    (h : stageAtPipeline p.hops p.last st.query.pipeline = .ok s) :
    autoExpandStageAtPath proj st p = .ok (st, s) := by
  simp [autoExpandStageAtPath, h]

theorem spliceInsert_length (n : Nat) (a : α) (l : List α) :
    (spliceInsert n a l).length = l.length + 1 := by
  induction l generalizing n with
  | nil => cases n <;> simp [spliceInsert]
  | cons x xs ih =>
    cases n with
    | zero => simp [spliceInsert]
    | succ m => simp [spliceInsert, ih]

theorem mem_spliceInsert {n : Nat} {a b : α} {l : List α}
    (h : b ∈ spliceInsert n a l) : b = a ∨ b ∈ l := by
  induction l generalizing n with
  | nil => cases n <;> simp [spliceInsert] at h <;> simp [h]
  | cons x xs ih =>
    cases n with
    | zero =>
      simp only [spliceInsert, List.mem_cons] at h
      simpa [List.mem_cons] using h
    | succ m =>
      simp only [spliceInsert, List.mem_cons] at h
      rcases h with h | h
      · exact .inr (by simp [h])
      · rcases ih h with h1 | h1
        · exact .inl h1
        · exact .inr (by simp [h1])

/-- Erasing at the index just spliced restores the list (splice index within
bounds). -/
theorem eraseIdx_spliceInsert (n : Nat) (a : α) (l : List α)
    (h : n ≤ l.length) : (spliceInsert n a l).eraseIdx n = l := by
  induction l generalizing n with
  | nil =>
    have : n = 0 := Nat.le_zero.mp (by simpa using h)
    subst this
    simp [spliceInsert, List.eraseIdx]
  | cons x xs ih =>
    cases n with
    | zero => simp [spliceInsert, List.eraseIdx]
    | succ m =>
      simp only [spliceInsert, List.eraseIdx]
      rw [ih m (by simpa using h)]

/-- The spliced element is readable back at its index. -/
theorem getElem?_spliceInsert_self (n : Nat) (a : α) (l : List α)
    (h : n ≤ l.length) : (spliceInsert n a l)[n]? = some a := by
  induction l generalizing n with
  | nil =>
    have : n = 0 := Nat.le_zero.mp (by simpa using h)
    subst this
    simp [spliceInsert]
  | cons x xs ih =>
    cases n with
    | zero => simp [spliceInsert]
    | succ m =>
      simp only [spliceInsert, List.getElem?_cons_succ]
      exact ih m (by simpa using h)

/-- When nothing in the list matches, the element spliced at `n ≤ length` is
the first match. -/
theorem findIdx?_spliceInsert (n : Nat) (a : α) (l : List α)
    (pred : α → Bool) (hn : n ≤ l.length) (ha : pred a = true)
    (hl : ∀ x ∈ l, pred x = false) :
    (spliceInsert n a l).findIdx? pred = some n := by
  induction l generalizing n with
  | nil =>
    have : n = 0 := Nat.le_zero.mp (by simpa using hn)
    subst this
    simp [spliceInsert, List.findIdx?_cons, ha]
  | cons x xs ih =>
    cases n with
    | zero => simp [spliceInsert, List.findIdx?_cons, ha]
    | succ m =>
      have hx : pred x = false := hl x (by simp)
      simp only [spliceInsert, List.findIdx?_cons, hx]
      rw [if_neg (by simp), List.findIdx?_succ,
        ih m (by simpa using hn) (fun y hy => hl y (by simp [hy]))]
      rfl

/-- The insertion scan never passes the end of the field list. -/
theorem scanInsert_le (proj : StructDef → Stage → StructDef)
    (root src : StructDef) (r : Nat) (fields : List QueryFieldDef) :
    scanInsert proj root src r fields ≤ fields.length := by
  induction fields with
  | nil => simp [scanInsert]
  | cons f fs ih =>
    simp only [scanInsert]
    split
    · split
      · simp
      · simpa using ih
    · simpa using ih

/-- Characterization of the insertion scan: every field strictly before the
returned index either fails to resolve or has rank at most `r`, and the field
at the returned index (when it exists) resolves to a strictly greater rank. -/
theorem scanInsert_spec (proj : StructDef → Stage → StructDef)
    (root src : StructDef) (r : Nat) (fields : List QueryFieldDef) :
    (∀ j f fd, j < scanInsert proj root src r fields → fields[j]? = some f →
      fieldDefForQueryFieldDef proj root f src = .ok fd → sortOrder fd ≤ r) ∧
    (∀ f, fields[scanInsert proj root src r fields]? = some f →
      ∃ fd, fieldDefForQueryFieldDef proj root f src = .ok fd ∧ r < sortOrder fd) := by
  induction fields with
  | nil => simp [scanInsert]
  | cons g gs ih =>
    simp only [scanInsert]
    split
    · rename_i fd0 hres
      split
      · rename_i hlt
        refine ⟨fun j f fd hj => by omega, fun f hf => ?_⟩
        simp only [List.getElem?_cons_zero] at hf
        cases hf
        exact ⟨fd0, hres, hlt⟩
      · rename_i hnlt
        refine ⟨fun j f fd hj hget hre => ?_, fun f hf => ?_⟩
        · cases j with
          | zero =>
            simp only [List.getElem?_cons_zero] at hget
            cases hget
            rw [hres] at hre
            cases hre
            omega
          | succ m =>
            simp only [List.getElem?_cons_succ] at hget
            exact ih.1 m f fd (by omega) hget hre
        · simp only [List.getElem?_cons_succ] at hf
          exact ih.2 f hf
    · rename_i hres
      refine ⟨fun j f fd hj hget hre => ?_, fun f hf => ?_⟩
      · cases j with
        | zero =>
          simp only [List.getElem?_cons_zero] at hget
          cases hget
          rw [hres] at hre
          cases hre
        | succ m =>
          simp only [List.getElem?_cons_succ] at hget
          exact ih.1 m f fd (by omega) hget hre
      · simp only [List.getElem?_cons_succ] at hf
        exact ih.2 f hf

theorem replaceWithDefinition_source {st st1 : QueryBuilderState}
    {p : StagePath} {fi : Nat}
    (h : replaceWithDefinition st p fi = .ok st1) : st1.source = st.source := by
  simp only [replaceWithDefinition] at h
  split at h
  · cases h
  · split at h
    · split at h
      · cases h; rfl
      · cases h
    · cases h

theorem autoExpand_source {proj : StructDef → Stage → StructDef}
    {st st1 : QueryBuilderState} {p : StagePath} {s : Stage}
    (h : autoExpandStageAtPath proj st p = .ok (st1, s)) :
    st1.source = st.source := by
  simp only [autoExpandStageAtPath] at h
  split at h
  · cases h; rfl
  · split at h
    · cases h
    · split at h
      · cases h
      · split at h
        · cases h
        · split at h
          · cases h
          · rename_i st2 hrep
            split at h
            · cases h
              exact replaceWithDefinition_source hrep
            · cases h
        · cases h
  · cases h

theorem updateStageAt_source (st : QueryBuilderState) (p : StagePath)
    (s : Stage) : (updateStageAt st p s).source = st.source := rfl

theorem insertFieldOp_source {proj : StructDef → Stage → StructDef}
    {st st1 : QueryBuilderState} {p : StagePath} {q : QueryFieldDef}
    (h : insertFieldOp proj st p q = .ok st1) : st1.source = st.source := by
  simp only [insertFieldOp] at h
  split at h
  · cases h
  · rename_i st2 s hae
    split at h
    · cases h
    · cases h
      exact (updateStageAt_source st2 p _).trans (autoExpand_source hae)

theorem removeFieldOp_source {st st1 : QueryBuilderState} {p : StagePath}
    {i : Nat} (h : removeFieldOp st p i = .ok st1) : st1.source = st.source := by
  simp only [removeFieldOp] at h
  split at h
  · cases h
  · split at h
    · split at h
      · cases h; rfl
      · split at h
        · cases h
        · cases h; rfl
    · cases h; rfl

theorem toggleFieldOp_source {proj : StructDef → Stage → StructDef}
    {st st1 : QueryBuilderState} {p : StagePath} {fp : String}
    (h : toggleFieldOp proj st p fp = .ok st1) : st1.source = st.source := by
  simp only [toggleFieldOp] at h
  split at h
  · cases h
  · rename_i st2 s hae
    split at h
    · cases h
    · split at h
      · exact (removeFieldOp_source h).trans (autoExpand_source hae)
      · exact (insertFieldOp_source h).trans (autoExpand_source hae)

theorem reorderFieldsOp_source {st st1 : QueryBuilderState} {p : StagePath}
    {o : List Nat} (h : reorderFieldsOp st p o = .ok st1) :
    st1.source = st.source := by
  simp only [reorderFieldsOp] at h
  split at h
  · cases h
  · split at h
    · cases h
    · cases h; rfl

theorem renameFieldOp_source {st st1 : QueryBuilderState} {p : StagePath}
    {i : Nat} {nm : String} (h : renameFieldOp st p i nm = .ok st1) :
    st1.source = st.source := by
  simp only [renameFieldOp] at h
  split at h
  · cases h
  · split at h
    · split at h
      · cases h
      · cases h; rfl
    · cases h

theorem addFilterOp_source {proj : StructDef → Stage → StructDef}
    {st st1 : QueryBuilderState} {p : StagePath} {f : FilterExpression}
    (h : addFilterOp proj st p f = .ok st1) : st1.source = st.source := by
  simp only [addFilterOp] at h
  split at h
  · cases h
  · rename_i st2 s hae
    cases h
    exact (updateStageAt_source st2 p _).trans (autoExpand_source hae)

theorem editFilterOp_source {st st1 : QueryBuilderState} {p : StagePath}
    {fi : Option Nat} {idx : Nat} {f : FilterExpression}
    (h : editFilterOp st p fi idx f = .ok st1) : st1.source = st.source := by
  simp only [editFilterOp] at h
  repeat' split at h
  all_goals cases h <;> rfl

theorem removeFilterOp_source {st st1 : QueryBuilderState} {p : StagePath}
    {idx : Nat} {fi : Option Nat} (h : removeFilterOp st p idx fi = .ok st1) :
    st1.source = st.source := by
  simp only [removeFilterOp] at h
  repeat' split at h
  all_goals cases h <;> rfl

theorem addLimitOp_source {proj : StructDef → Stage → StructDef}
    {st st1 : QueryBuilderState} {p : StagePath} {n : Nat}
    {b : Option SchemaField} {d : Option OrderDirection}
    (h : addLimitOp proj st p n b d = .ok st1) : st1.source = st.source := by
  simp only [addLimitOp] at h
  split at h
  · cases h
  · rename_i st2 s hae
    split at h
    · split at h
      · cases h
        exact (updateStageAt_source st2 p _).trans (autoExpand_source hae)
      · cases h
        exact (updateStageAt_source st2 p _).trans (autoExpand_source hae)
    · cases h

theorem removeLimitOp_source {st st1 : QueryBuilderState} {p : StagePath}
    (h : removeLimitOp st p = .ok st1) : st1.source = st.source := by
  simp only [removeLimitOp] at h
  split at h
  · cases h
  · cases h; rfl

theorem addOrderByOp_source {proj : StructDef → Stage → StructDef}
    {st st1 : QueryBuilderState} {p : StagePath} {i : Nat}
    {d : Option OrderDirection}
    (h : addOrderByOp proj st p i d = .ok st1) : st1.source = st.source := by
  simp only [addOrderByOp] at h
  split at h
  · cases h
  · rename_i st2 s hae
    split at h
    · split at h
      · cases h
      · cases h
        exact (updateStageAt_source st2 p _).trans (autoExpand_source hae)
    · cases h

theorem editOrderByOp_source {st st1 : QueryBuilderState} {p : StagePath}
    {i : Nat} {d : Option OrderDirection}
    (h : editOrderByOp st p i d = .ok st1) : st1.source = st.source := by
  simp only [editOrderByOp] at h
  split at h
  · cases h
  · split at h
    · split at h
      · cases h
      · cases h; rfl
    · cases h

theorem removeOrderByOp_source {st st1 : QueryBuilderState} {p : StagePath}
    {i : Nat} (h : removeOrderByOp st p i = .ok st1) :
    st1.source = st.source := by
  simp only [removeOrderByOp] at h
  split at h
  · cases h
  · split at h
    · split at h
      · cases h; rfl
      · cases h; rfl
    · cases h

theorem addStageOp_source {proj : StructDef → Stage → StructDef}
    {st st1 : QueryBuilderState} {p : Option StagePath} {fi : Option Nat}
    (h : addStageOp proj st p fi = .ok st1) : st1.source = st.source := by
  simp only [addStageOp] at h
  split at h
  · cases h; rfl
  · split at h
    · cases h
    · split at h
      · cases h
      · split at h
        · cases h
        · split at h
          · cases h
          · split at h
            · cases h
            · split at h
              · split at h
                · cases h
                · rename_i st2 hrep
                  split at h
                  · cases h
                  · split at h
                    · cases h
                      exact (updateStageAt_source st2 _ _).trans
                        (replaceWithDefinition_source hrep)
                    · cases h
              · cases h
              · cases h; rfl
              · cases h
            · cases h

theorem removeStageOp_source {st st1 : QueryBuilderState} {p : StagePath}
    (h : removeStageOp st p = .ok st1) : st1.source = st.source := by
  simp only [removeStageOp] at h
  split at h
  · cases h; rfl
  · split at h
    · cases h
    · split at h
      · cases h
      · cases h; rfl
      · cases h

theorem loadQueryOp_source {proj : StructDef → Stage → StructDef}
    {st st1 : QueryBuilderState} {qp : String}
    (h : loadQueryOp proj st qp = .ok st1) : st1.source = st.source := by
  simp only [loadQueryOp] at h
  split at h
  · cases h
  · split at h
    · cases h
    · cases h; rfl
  · cases h

theorem replaceQueryOp_source {st st1 : QueryBuilderState} {t : TurtleDef}
    (h : replaceQueryOp st t = .ok st1) : st1.source = st.source := by
  simp only [replaceQueryOp] at h
  split at h
  · cases h
  · cases h; rfl

/-- No editor operation ever changes the bound schema. -/
theorem runEditOp_source {proj : StructDef → Stage → StructDef}
    {op : EditOp} {st st1 : QueryBuilderState}
    (h : runEditOp proj op st = .ok st1) : st1.source = st.source := by
  cases op with
  | addField p fp => exact insertFieldOp_source h
  | toggleField p fp => exact toggleFieldOp_source h
  | removeField p i => exact removeFieldOp_source h
  | reorderFields p o => exact reorderFieldsOp_source h
  | renameField p i nm => exact renameFieldOp_source h
  | addFilter p f => exact addFilterOp_source h
  | editFilter p fi idx f => exact editFilterOp_source h
  | removeFilter p idx fi => exact removeFilterOp_source h
  | addLimit p n b d => exact addLimitOp_source h
  | removeLimit p => exact removeLimitOp_source h
  | addOrderBy p i d => exact addOrderByOp_source h
  | editOrderBy p i d => exact editOrderByOp_source h
  | removeOrderBy p i => exact removeOrderByOp_source h
  | addStage p fi => exact addStageOp_source h
  | removeStage p => exact removeStageOp_source h
  | loadQuery qp => exact loadQueryOp_source h
  | replaceQuery t => exact replaceQueryOp_source h

theorem applyEditOp_source (proj : StructDef → Stage → StructDef)
    (op : EditOp) (st : QueryBuilderState) :
    (applyEditOp proj op st).source = st.source := by
  simp only [applyEditOp]
  split
  · rename_i st1 h
    exact runEditOp_source h
  · rfl

/-- Whatever sequence of editor operations runs, the schema is untouched. -/
theorem applyEditOps_source (proj : StructDef → Stage → StructDef)
    (ops : List EditOp) (st : QueryBuilderState) :
    (applyEditOps proj ops st).source = st.source := by
  induction ops generalizing st with
  | nil => rfl
  | cons op ops ih =>
    simp only [applyEditOps, List.foldl_cons]
    exact (ih (applyEditOp proj op st)).trans (applyEditOp_source proj op st)

/-- Claim C9: for a stage whose field at `fieldIndex` is a refined
(filtered-aliased) reference, `removeFilter(path, filterIndex, fieldIndex)`
removes the entry at position `fieldIndex` — not `filterIndex` — from that
field's private filter list (the `filterIndex` argument is ignored in the
field-level branch); stage-level removal (no field index) removes the entry
at `filterIndex`. -/
theorem claim_C9_theorem (st : QueryBuilderState) (p : StagePath) (s : Stage)
    (filterIndex fi : Nat) (nm : String) (a : Option String)
    (l fls : List FilterExpression)
    (hs : stageAtPipeline p.hops p.last st.query.pipeline = .ok s)
    (hf : s.fields[fi]? = some (.fan nm a (some l)))
    (hfl : s.filterList = some fls) :
    removeFilterOp st p filterIndex (some fi) =
      .ok (updateStageAt st p
        (s.withFields (s.fields.set fi (.fan nm a (some (l.eraseIdx fi))))))
    ∧ removeFilterOp st p filterIndex none =
      .ok (updateStageAt st p (s.withFilterList (some (fls.eraseIdx filterIndex)))) := by
  constructor
  · simp [removeFilterOp, hs, hf]
  · simp [removeFilterOp, hs, hfl]

/-- Witness for C9 at a concrete builder: the field-level branch deletes the
entry at the FIELD index (0, removing "f0"), ignoring the filter index 1. -/
theorem claim_C9_witness :
    stageAtPipeline rootPath.hops rootPath.last exStateC9.query.pipeline =
      .ok (.mk .reduce [.fan "x" none (some [⟨"f0"⟩, ⟨"f1"⟩])]
        (some [⟨"g0"⟩, ⟨"g1"⟩]) none none none)
    ∧ removeFilterOp exStateC9 rootPath 1 (some 0) =
      .ok (updateStageAt exStateC9 rootPath
        ((Stage.mk .reduce [.fan "x" none (some [⟨"f0"⟩, ⟨"f1"⟩])]
          (some [⟨"g0"⟩, ⟨"g1"⟩]) none none none).withFields
          ([QueryFieldDef.fan "x" none (some [⟨"f0"⟩, ⟨"f1"⟩])].set 0
            (.fan "x" none (some ([⟨"f0"⟩, ⟨"f1"⟩].eraseIdx 0)))))) := by
  refine ⟨rfl, ?_⟩
  exact (claim_C9_theorem exStateC9 rootPath _ 1 0 "x" none
    [⟨"f0"⟩, ⟨"f1"⟩] [⟨"g0"⟩, ⟨"g1"⟩] rfl rfl rfl).1

/-- Claim C10: `addLimit(path, n, byField, dir)` with a by-field replaces the
stage's entire order-by list with a single entry referencing the by-field's
path, discarding previous entries; with no by-field it sets only the limit
and leaves the order-by list unchanged. -/
theorem claim_C10_theorem (proj : StructDef → Stage → StructDef)
    (st : QueryBuilderState) (p : StagePath) (s : Stage) (n : Nat)
    (b : SchemaField) (d : Option OrderDirection)
    (hs : stageAtPipeline p.hops p.last st.query.pipeline = .ok s)
    (hk : s.kind = .reduce) :
    addLimitOp proj st p n (some b) d =
      .ok (updateStageAt st p
        ((s.withLimit (some n)).withOrderBy (some [⟨.byName b.path, d⟩])))
    ∧ addLimitOp proj st p n none d =
      .ok (updateStageAt st p (s.withLimit (some n))) := by
  have hae := autoExpand_of_stageAt_ok proj st p s hs
  constructor
  · simp [addLimitOp, hae, hk]
  · simp [addLimitOp, hae, hk]

/-- Witness for C10 at a concrete stage with a pre-existing order-by entry:
the single new entry replaces it wholesale; omitting the by-field keeps it. -/
theorem claim_C10_witness :
    stageAtPipeline rootPath.hops rootPath.last exStateC10.query.pipeline =
      .ok (.mk .reduce [.path "age"] none none (some [⟨.byName "age", none⟩]) none)
    ∧ addLimitOp projId exStateC10 rootPath 5 (some ⟨"age"⟩) (some .desc) =
      .ok (updateStageAt exStateC10 rootPath
        (((Stage.mk .reduce [.path "age"] none none
            (some [⟨.byName "age", none⟩]) none).withLimit (some 5)).withOrderBy
          (some [⟨.byName "age", some .desc⟩])))
    ∧ addLimitOp projId exStateC10 rootPath 5 none (some .desc) =
      .ok (updateStageAt exStateC10 rootPath
        ((Stage.mk .reduce [.path "age"] none none
          (some [⟨.byName "age", none⟩]) none).withLimit (some 5))) := by
  refine ⟨rfl, ?_, ?_⟩
  · exact (claim_C10_theorem projId exStateC10 rootPath _ 5 ⟨"age"⟩ (some .desc) rfl rfl).1
  · exact (claim_C10_theorem projId exStateC10 rootPath _ 5 ⟨"age"⟩ (some .desc) rfl rfl).2

/-- Claim C5: `insertField` classifies the new field's rank (0 dimension,
1 calculation, 2 nested query, 3 structure) and inserts at the first index
whose existing field has strictly greater rank, appending at the end when
none does; existing fields that fail to resolve during the scan are skipped
rather than aborting; in particular the insertion index never passes a field
of strictly greater rank (so a dimension lands before a calculation). -/
theorem claim_C5_theorem (proj : StructDef → Stage → StructDef)
    (st : QueryBuilderState) (p : StagePath) (q : QueryFieldDef) (s : Stage)
    (src : StructDef) (fd : FieldDef)
    (hs : stageAtPipeline p.hops p.last st.query.pipeline = .ok s)
    (hsrc : sourceForStageAtPathAux proj p.hops p.last st.query.pipeline st.source = .ok src)
    (hfd : fieldDefForQueryFieldDef proj st.source q src = .ok fd) :
    (∀ n a c, sortOrder (.atomic n a c .scalar) = 0) ∧
    (∀ n a c, sortOrder (.atomic n a c .aggregate) = 1) ∧
    (∀ n a pipe, sortOrder (.turtle n a pipe) = 2) ∧
    (∀ n a fs, sortOrder (.struct n a fs) = 3) ∧
    getIndexToInsertNewField proj st p q =
      .ok (scanInsert proj st.source src (sortOrder fd) s.fields) ∧
    insertFieldOp proj st p q =
      .ok (updateStageAt st p (s.withFields
        (spliceInsert (scanInsert proj st.source src (sortOrder fd) s.fields) q s.fields))) ∧
    scanInsert proj st.source src (sortOrder fd) s.fields ≤ s.fields.length ∧
    (∀ j f fd2, j < scanInsert proj st.source src (sortOrder fd) s.fields →
      s.fields[j]? = some f →
      fieldDefForQueryFieldDef proj st.source f src = .ok fd2 →
      sortOrder fd2 ≤ sortOrder fd) ∧
    (∀ f, s.fields[scanInsert proj st.source src (sortOrder fd) s.fields]? = some f →
      ∃ fd2, fieldDefForQueryFieldDef proj st.source f src = .ok fd2 ∧
        sortOrder fd < sortOrder fd2) ∧
    (∀ k f fd2, s.fields[k]? = some f →
      fieldDefForQueryFieldDef proj st.source f src = .ok fd2 →
      sortOrder fd < sortOrder fd2 →
      scanInsert proj st.source src (sortOrder fd) s.fields ≤ k) := by
  have hidx : getIndexToInsertNewField proj st p q =
      .ok (scanInsert proj st.source src (sortOrder fd) s.fields) := by
    simp [getIndexToInsertNewField, hs, hsrc, hfd]
  have hae := autoExpand_of_stageAt_ok proj st p s hs
  have hspec := scanInsert_spec proj st.source src (sortOrder fd) s.fields
  refine ⟨fun n a c => rfl, fun n a c => rfl, fun n a pipe => rfl, fun n a fs => rfl,
    hidx, ?_, scanInsert_le proj st.source src (sortOrder fd) s.fields,
    hspec.1, hspec.2, ?_⟩
  · simp [insertFieldOp, hae, hidx]
  · intro k f fd2 hget hres hlt
    by_contra hcon
    have hk : k < scanInsert proj st.source src (sortOrder fd) s.fields := by omega
    have := hspec.1 k f fd2 hk hget hres
    omega

/-- Witness for C5: inserting the dimension age into a stage already holding
the calculation total yields insertion index 0, before the calculation. -/
theorem claim_C5_witness :
    stageAtPipeline rootPath.hops rootPath.last exStateC5.query.pipeline =
      .ok (exStage [.path "total"])
    ∧ sourceForStageAtPathAux projId rootPath.hops rootPath.last
        exStateC5.query.pipeline exStateC5.source = .ok exStateC5.source
    ∧ fieldDefForQueryFieldDef projId exStateC5.source (.path "age")
        exStateC5.source = .ok exAge
    ∧ getIndexToInsertNewField projId exStateC5 rootPath (.path "age") = .ok 0 := by
  refine ⟨rfl, rfl, rfl, ?_⟩
  have h := (claim_C5_theorem projId exStateC5 rootPath (.path "age")
    (exStage [.path "total"]) exStateC5.source exAge rfl rfl rfl).2.2.2.2.1
  exact h.trans (by rfl)

/-- Full characterization of `removeField` at a resolvable path with an
in-range field index. -/
theorem removeFieldOp_spec (st : QueryBuilderState) (p : StagePath) (s : Stage)
    (i : Nat) (f : QueryFieldDef)
    (hs : stageAtPipeline p.hops p.last st.query.pipeline = .ok s)
    (hf : s.fields[i]? = some f) :
    removeFieldOp st p i = .ok (updateStageAt st p
      ((match s.kind, s.orderBy with
        | .reduce, some ob =>
          s.withOrderBy (some (removeFirstOrderBy ob (nameOfQueryField f)))
        | _, _ => s).withFields (s.fields.eraseIdx i))) := by
  simp only [removeFieldOp, hs]
  cases hk : s.kind with
  | reduce =>
    cases hob : s.orderBy with
    | none => simp
    | some ob =>
      cases ob with
      | nil =>
        simp only [List.isEmpty_nil, if_true]
        have hseq : s.withOrderBy (some (removeFirstOrderBy [] (nameOfQueryField f))) = s := by
          cases s with
          | mk k fs fl l ob0 b =>
            simp only [Stage.orderBy_mk] at hob
            simp [removeFirstOrderBy, List.findIdx?, hob]
        rw [hseq]
      | cons o obs =>
        simp [hf]
  | project => simp
  | index => simp

/-- Claim C2, counterexample to "deletes ALL order-by entries referencing the
display name": with two entries both naming the removed field, one entry
referencing the removed display name remains after `removeField`. -/
theorem claim_C2_counterexample :
    removeFieldOp exStateC2 rootPath 0 =
      .ok ⟨⟨"s", none, []⟩,
        ⟨"q", none, [.mk .reduce [] none none (some [⟨.byName "a", none⟩]) none]⟩⟩
    ∧ List.any [(⟨.byName "a", none⟩ : OrderByClause)] (orderMatchesName "a") = true := by
  exact ⟨rfl, rfl⟩

/-- Claim C2 as amended: `removeField(path, index)` deletes the FIRST
order-by entry (at most one) whose field name equals the display name of the
field at `index` (later matching entries are retained), and then deletes the
field. -/
theorem claim_C2_theorem (st : QueryBuilderState) (p : StagePath) (s : Stage)
    (i : Nat) (f : QueryFieldDef)
    (hs : stageAtPipeline p.hops p.last st.query.pipeline = .ok s)
    (hf : s.fields[i]? = some f) :
    removeFieldOp st p i = .ok (updateStageAt st p
      ((match s.kind, s.orderBy with
        | .reduce, some ob =>
          s.withOrderBy (some (removeFirstOrderBy ob (nameOfQueryField f)))
        | _, _ => s).withFields (s.fields.eraseIdx i))) :=
  removeFieldOp_spec st p s i f hs hf

/-- Witness for the amended C2 at the concrete builder of the
counterexample: exactly the first of the two matching entries is deleted. -/
theorem claim_C2_witness :
    stageAtPipeline rootPath.hops rootPath.last exStateC2.query.pipeline =
      .ok (.mk .reduce [.path "a"] none none
        (some [⟨.byName "a", none⟩, ⟨.byName "a", none⟩]) none)
    ∧ ((Stage.mk .reduce [.path "a"] none none
        (some [⟨.byName "a", none⟩, ⟨.byName "a", none⟩]) none).fields[0]? =
          some (.path "a"))
    ∧ removeFieldOp exStateC2 rootPath 0 =
      .ok (updateStageAt exStateC2 rootPath
        (((Stage.mk .reduce [.path "a"] none none
            (some [⟨.byName "a", none⟩, ⟨.byName "a", none⟩]) none).withOrderBy
          (some (removeFirstOrderBy [⟨.byName "a", none⟩, ⟨.byName "a", none⟩] "a"))).withFields
            ([QueryFieldDef.path "a"].eraseIdx 0))) := by
  refine ⟨rfl, rfl, ?_⟩
  exact claim_C2_theorem exStateC2 rootPath _ 0 (.path "a") rfl rfl

theorem renderFragments_append (a b : List Fragment) (st : String × Nat × Bool) :
    renderFragments (a ++ b) st = renderFragments b (renderFragments a st) := by
  simp [renderFragments, List.foldl_append]

/-- The filter loop renders one predicate per line at the current indent,
comma after each but the last. -/
theorem renderFragments_filtersLoop (fl : List FilterExpression)
    (acc : String) (ind : Nat) (h : fl ≠ []) :
    renderFragments (filtersLoopFragments fl) (acc, ind, true) =
      (acc ++ whereLines ind fl, ind, true) := by
  induction fl generalizing acc with
  | nil => cases h rfl
  | cons f rest ih =>
    cases rest with
    | nil =>
      simp [filtersLoopFragments, renderFragments, renderStep, whereLines,
        String.append_assoc]
    | cons g rest2 =>
      have hstep : renderFragments [Fragment.str f.code, Fragment.str ",", Fragment.newline]
          (acc, ind, true) =
          (acc ++ indentString ind ++ f.code ++ "," ++ "\n", ind, true) := by
        simp [renderFragments, renderStep]
      calc renderFragments (filtersLoopFragments (f :: g :: rest2)) (acc, ind, true)
          = renderFragments (filtersLoopFragments (g :: rest2))
              (acc ++ indentString ind ++ f.code ++ "," ++ "\n", ind, true) := by
            simp only [filtersLoopFragments, renderFragments_append, hstep]
        _ = (acc ++ whereLines ind (f :: g :: rest2), ind, true) := by
            rw [ih (acc ++ indentString ind ++ f.code ++ "," ++ "\n") (by simp)]
            simp [whereLines, String.append_assoc]

/-- Claim C8: a stage's filter list renders as a `where:` clause whose single
predicate sits inline on the same line when there is exactly one entry, and
otherwise each predicate sits on its own line one indent level deeper,
comma-separated except after the last; in both shapes the renderer is left at
the original indent at the start of a fresh line. -/
theorem claim_C8_theorem (fl : List FilterExpression) (acc : String)
    (ind : Nat) (h : fl ≠ []) :
    renderFragments (Fragment.str "where:" :: getFiltersString fl) (acc, ind, true) =
      (acc ++ indentString ind ++
        (match fl with
         | [f] => "where: " ++ f.code ++ "\n"
         | _ => "where:\n" ++ whereLines (ind + 1) fl), ind, true) := by
  cases fl with
  | nil => cases h rfl
  | cons f rest =>
    cases rest with
    | nil =>
      simp [getFiltersString, filtersLoopFragments, renderFragments, renderStep,
        String.append_assoc]
    | cons g rest2 =>
      have hlen : ((f :: g :: rest2).length == 1) = false := by
        simp
      have hlen2 : (f :: g :: rest2).length > 1 := by
        simp
      simp only [getFiltersString, hlen, Bool.false_eq_true, if_false, if_pos hlen2]
      have h1 : renderFragments [Fragment.str "where:", Fragment.newline, Fragment.indent]
          (acc, ind, true) = (acc ++ indentString ind ++ "where:" ++ "\n", ind + 1, true) := by
        simp [renderFragments, renderStep]
      calc renderFragments (Fragment.str "where:" ::
            ([Fragment.newline, Fragment.indent] ++
              filtersLoopFragments (f :: g :: rest2) ++ [Fragment.outdent]))
            (acc, ind, true)
          = renderFragments [Fragment.outdent]
              (renderFragments (filtersLoopFragments (f :: g :: rest2))
                (acc ++ indentString ind ++ "where:" ++ "\n", ind + 1, true)) := by
            rw [show (Fragment.str "where:" ::
              ([Fragment.newline, Fragment.indent] ++
                filtersLoopFragments (f :: g :: rest2) ++ [Fragment.outdent])) =
              ([Fragment.str "where:", Fragment.newline, Fragment.indent] ++
                filtersLoopFragments (f :: g :: rest2)) ++ [Fragment.outdent] by simp]
            rw [renderFragments_append, renderFragments_append, h1]
        _ = (acc ++ indentString ind ++
              ("where:\n" ++ whereLines (ind + 1) (f :: g :: rest2)), ind, true) := by
            rw [renderFragments_filtersLoop _ _ _ (by simp)]
            simp [renderFragments, renderStep, String.append_assoc]

/-- Witness for C8: one predicate renders inline; two predicates render one
per indented line with a comma after the first only. -/
theorem claim_C8_witness :
    (([⟨"a > 1"⟩] : List FilterExpression) ≠ []) ∧
    (([⟨"a > 1"⟩, ⟨"b < 2"⟩] : List FilterExpression) ≠ []) ∧
    renderFragments (Fragment.str "where:" ::
        getFiltersString [⟨"a > 1"⟩]) ("", 0, true) =
      ("where: a > 1\n", 0, true) ∧
    renderFragments (Fragment.str "where:" ::
        getFiltersString [⟨"a > 1"⟩, ⟨"b < 2"⟩]) ("", 0, true) =
      ("where:\n  a > 1,\n  b < 2\n", 0, true) := by
  refine ⟨by simp, by simp, ?_, ?_⟩
  · have h := claim_C8_theorem [⟨"a > 1"⟩] "" 0 (by simp)
    exact h.trans (by rfl)
  · have h := claim_C8_theorem [⟨"a > 1"⟩, ⟨"b < 2"⟩] "" 0 (by simp)
    exact h.trans (by rfl)

/-- When every stage index shared by the two pipelines holds two reduce
stages, the loadQuery merge succeeds and equals the total pairwise merge. -/
theorem mergePipelines_eq_total (cur dp : List Stage)
    (h : ∀ (i : Nat) (c l : Stage), cur[i]? = some c → dp[i]? = some l →
      c.kind = .reduce ∧ l.kind = .reduce) :
    mergePipelines cur dp = .ok (zipMergeTotal cur dp) := by
  induction dp generalizing cur with
  | nil => cases cur <;> simp [mergePipelines, zipMergeTotal]
  | cons l ls ih =>
    cases cur with
    | nil =>
      have ih0 := ih [] (fun i c l' hc => by simp at hc)

      simp [mergePipelines, zipMergeTotal, ih0]
    | cons c cs =>
      have h0 := h 0 c l (by simp) (by simp)
      have hm : mergeStage c l = .ok (mergeStageTotal c l) := by
        simp [mergeStage, h0.1, h0.2]
      have ih1 := ih cs (fun i c' l' hc hl =>
        h (i + 1) c' l' (by simpa using hc) (by simpa using hl))
      simp [mergePipelines, hm, ih1, zipMergeTotal]

theorem zipMergeTotal_getElem (cur dp : List Stage) (i : Nat) :
    (zipMergeTotal cur dp)[i]? =
      match cur[i]?, dp[i]? with
      | some c, some l => some (mergeStageTotal c l)
      | some c, none => some c
      | none, some l => some l
      | none, none => none := by
  induction dp generalizing cur i with
  | nil =>
    cases hc : cur[i]? <;> simp [zipMergeTotal, hc]
  | cons l ls ih =>
    cases cur with
    | nil =>
      cases i with
      | zero => simp [zipMergeTotal]
      | succ m =>
        have := ih [] m
        simp only [zipMergeTotal, List.getElem?_cons_succ, List.getElem?_nil] at this ⊢
        rw [this]
    | cons c cs =>
      cases i with
      | zero => simp [zipMergeTotal]
      | succ m =>
        have := ih cs m
        simp only [zipMergeTotal, List.getElem?_cons_succ] at this ⊢
        rw [this]

/-- Claim C1 as amended: stages the current tree lacks are copied verbatim;
at EVERY index where both pipelines have a stage — including indexes at or
past 1 — the loaded stage is merged into the existing one exactly as at stage
0 (the same stage merge), and the load succeeds provided every shared index
holds two reduce stages; `MergeConflict` arises only from a non-reduce stage
at a shared index, not from the mere existence of a shared deep stage. -/
theorem claim_C1_theorem (proj : StructDef → Stage → StructDef)
    (st : QueryBuilderState) (qp dn : String) (da : Option String)
    (dp : List Stage)
    (hdef : getField proj st.source st.source qp = .ok (.turtle dn da dp))
    (hred : ∀ (i : Nat) (c l : Stage), st.query.pipeline[i]? = some c →
      dp[i]? = some l → c.kind = .reduce ∧ l.kind = .reduce) :
    loadQueryOp proj st qp =
      .ok ⟨st.source, ⟨da.getD dn, none, zipMergeTotal st.query.pipeline dp⟩⟩ ∧
    (∀ (i : Nat) (c l : Stage), st.query.pipeline[i]? = some c → dp[i]? = some l →
      (zipMergeTotal st.query.pipeline dp)[i]? = some (mergeStageTotal c l)) ∧
    (∀ (i : Nat) (l : Stage), st.query.pipeline[i]? = none → dp[i]? = some l →
      (zipMergeTotal st.query.pipeline dp)[i]? = some l) ∧
    (∀ (i : Nat) (c : Stage), st.query.pipeline[i]? = some c → dp[i]? = none →
      (zipMergeTotal st.query.pipeline dp)[i]? = some c) := by
  refine ⟨?_, ?_, ?_, ?_⟩
  · simp [loadQueryOp, hdef, mergePipelines_eq_total _ _ hred]
  · intro i c l hc hl
    rw [zipMergeTotal_getElem, hc, hl]
  · intro i l hc hl
    rw [zipMergeTotal_getElem, hc, hl]
  · intro i c hc hl
    rw [zipMergeTotal_getElem, hc, hl]

/-- Counterexample to C1 as stated: a two-stage named query loaded into a
two-stage current tree (so stage index 1 exists on both sides, both reduce)
does NOT fail with MergeConflict — the load succeeds. -/
theorem claim_C1_counterexample :
    getField projId exSourceQ exSourceQ "q" =
      .ok (.turtle "q" none [exStage [.path "age"], exStage []]) ∧
    (exStateC1.query.pipeline[1]?).isSome = true ∧
    ([exStage [.path "age"], exStage []][1]?).isSome = true ∧
    (loadQueryOp projId exStateC1 "q").isOk = true := by
  exact ⟨rfl, rfl, rfl, rfl⟩

/-- Witness for the amended C1 at the concrete two-stage builder. -/
theorem claim_C1_witness :
    getField projId exStateC1.source exStateC1.source "q" =
      .ok (.turtle "q" none [exStage [.path "age"], exStage []]) ∧
    loadQueryOp projId exStateC1 "q" =
      .ok ⟨exStateC1.source,
        ⟨"q", none, zipMergeTotal exStateC1.query.pipeline
          [exStage [.path "age"], exStage []]⟩⟩ := by
  refine ⟨rfl, ?_⟩
  have hred : ∀ (i : Nat) (c l : Stage), exStateC1.query.pipeline[i]? = some c →
      [exStage [.path "age"], exStage []][i]? = some l →
      c.kind = .reduce ∧ l.kind = .reduce := by
    intro i c l hc hl
    match i with
    | 0 =>
      cases hc
      cases hl
      exact ⟨rfl, rfl⟩
    | 1 =>
      cases hc
      cases hl
      exact ⟨rfl, rfl⟩
    | n + 2 => simp [exStateC1] at hc
  exact (claim_C1_theorem projId exStateC1 "q" "q" none
    [exStage [.path "age"], exStage []] rfl hred).1

theorem Stage.kind_withFields (s : Stage) (x : List QueryFieldDef) :
    (s.withFields x).kind = s.kind := by
  cases s
  rfl

theorem Stage.fields_withFields (s : Stage) (x : List QueryFieldDef) :
    (s.withFields x).fields = x := by
  cases s
  rfl

theorem Stage.filterList_withFields (s : Stage) (x : List QueryFieldDef) :
    (s.withFields x).filterList = s.filterList := by
  cases s
  rfl

theorem Stage.limit_withFields (s : Stage) (x : List QueryFieldDef) :
    (s.withFields x).limit = s.limit := by
  cases s
  rfl

theorem Stage.orderBy_withFields (s : Stage) (x : List QueryFieldDef) :
    (s.withFields x).orderBy = s.orderBy := by
  cases s
  rfl

theorem Stage.byClause_withFields (s : Stage) (x : List QueryFieldDef) :
    (s.withFields x).byClause = s.byClause := by
  cases s
  rfl

theorem Stage.kind_withFilterList (s : Stage) (x : Option (List FilterExpression)) :
    (s.withFilterList x).kind = s.kind := by
  cases s
  rfl

theorem Stage.fields_withFilterList (s : Stage) (x : Option (List FilterExpression)) :
    (s.withFilterList x).fields = s.fields := by
  cases s
  rfl

theorem Stage.filterList_withFilterList (s : Stage) (x : Option (List FilterExpression)) :
    (s.withFilterList x).filterList = x := by
  cases s
  rfl

theorem Stage.limit_withFilterList (s : Stage) (x : Option (List FilterExpression)) :
    (s.withFilterList x).limit = s.limit := by
  cases s
  rfl

theorem Stage.orderBy_withFilterList (s : Stage) (x : Option (List FilterExpression)) :
    (s.withFilterList x).orderBy = s.orderBy := by
  cases s
  rfl

theorem Stage.byClause_withFilterList (s : Stage) (x : Option (List FilterExpression)) :
    (s.withFilterList x).byClause = s.byClause := by
  cases s
  rfl

theorem Stage.kind_withLimit (s : Stage) (x : Option Nat) :
    (s.withLimit x).kind = s.kind := by
  cases s
  rfl

theorem Stage.fields_withLimit (s : Stage) (x : Option Nat) :
    (s.withLimit x).fields = s.fields := by
  cases s
  rfl

theorem Stage.filterList_withLimit (s : Stage) (x : Option Nat) :
    (s.withLimit x).filterList = s.filterList := by
  cases s
  rfl

theorem Stage.limit_withLimit (s : Stage) (x : Option Nat) :
    (s.withLimit x).limit = x := by
  cases s
  rfl

theorem Stage.orderBy_withLimit (s : Stage) (x : Option Nat) :
    (s.withLimit x).orderBy = s.orderBy := by
  cases s
  rfl

theorem Stage.byClause_withLimit (s : Stage) (x : Option Nat) :
    (s.withLimit x).byClause = s.byClause := by
  cases s
  rfl

theorem Stage.kind_withOrderBy (s : Stage) (x : Option (List OrderByClause)) :
    (s.withOrderBy x).kind = s.kind := by
  cases s
  rfl

theorem Stage.fields_withOrderBy (s : Stage) (x : Option (List OrderByClause)) :
    (s.withOrderBy x).fields = s.fields := by
  cases s
  rfl

theorem Stage.filterList_withOrderBy (s : Stage) (x : Option (List OrderByClause)) :
    (s.withOrderBy x).filterList = s.filterList := by
  cases s
  rfl

theorem Stage.limit_withOrderBy (s : Stage) (x : Option (List OrderByClause)) :
    (s.withOrderBy x).limit = s.limit := by
  cases s
  rfl

theorem Stage.orderBy_withOrderBy (s : Stage) (x : Option (List OrderByClause)) :
    (s.withOrderBy x).orderBy = x := by
  cases s
  rfl

theorem Stage.byClause_withOrderBy (s : Stage) (x : Option (List OrderByClause)) :
    (s.withOrderBy x).byClause = s.byClause := by
  cases s
  rfl

theorem Stage.kind_withByClause (s : Stage) (x : Option String) :
    (s.withByClause x).kind = s.kind := by
  cases s
  rfl

theorem Stage.fields_withByClause (s : Stage) (x : Option String) :
    (s.withByClause x).fields = s.fields := by
  cases s
  rfl

theorem Stage.filterList_withByClause (s : Stage) (x : Option String) :
    (s.withByClause x).filterList = s.filterList := by
  cases s
  rfl

theorem Stage.limit_withByClause (s : Stage) (x : Option String) :
    (s.withByClause x).limit = s.limit := by
  cases s
  rfl

theorem Stage.orderBy_withByClause (s : Stage) (x : Option String) :
    (s.withByClause x).orderBy = s.orderBy := by
  cases s
  rfl

theorem Stage.byClause_withByClause (s : Stage) (x : Option String) :
    (s.withByClause x).byClause = x := by
  cases s
  rfl

attribute [simp]
  Stage.kind_withFields
  Stage.fields_withFields
  Stage.filterList_withFields
  Stage.limit_withFields
  Stage.orderBy_withFields
  Stage.byClause_withFields
  Stage.kind_withFilterList
  Stage.fields_withFilterList
  Stage.filterList_withFilterList
  Stage.limit_withFilterList
  Stage.orderBy_withFilterList
  Stage.byClause_withFilterList
  Stage.kind_withLimit
  Stage.fields_withLimit
  Stage.filterList_withLimit
  Stage.limit_withLimit
  Stage.orderBy_withLimit
  Stage.byClause_withLimit
  Stage.kind_withOrderBy
  Stage.fields_withOrderBy
  Stage.filterList_withOrderBy
  Stage.limit_withOrderBy
  Stage.orderBy_withOrderBy
  Stage.byClause_withOrderBy
  Stage.kind_withByClause
  Stage.fields_withByClause
  Stage.filterList_withByClause
  Stage.limit_withByClause
  Stage.orderBy_withByClause
  Stage.byClause_withByClause

theorem mergeStageTotal_limit (c l : Stage) :
    (mergeStageTotal c l).limit =
      (match l.limit with
       | some n => if n ≠ 0 then some n else c.limit
       | none => c.limit) := by
  cases c with
  | mk kc fc flc lc obc bc =>
    cases l with
    | mk kl fl2 fll ll obl bl =>
      cases bl <;> cases fll <;> cases ll <;> cases obl <;>
        simp [mergeStageTotal, apply_ite]
      all_goals split_ifs <;> simp_all

theorem mergeStageTotal_filterList (c l : Stage) :
    (mergeStageTotal c l).filterList =
      (match l.filterList with
       | some fl =>
         some (c.filterList.getD [] ++
           fl.filter (fun (f : FilterExpression) =>
             !((c.filterList.getD []).any (fun (e : FilterExpression) => e.code == f.code))))
       | none => c.filterList) := by
  cases c with
  | mk kc fc flc lc obc bc =>
    cases l with
    | mk kl fl2 fll ll obl bl =>
      cases bl <;> cases fll <;> cases ll <;> cases obl <;>
        simp [mergeStageTotal, apply_ite]

theorem mergeStageTotal_fields (c l : Stage) :
    (mergeStageTotal c l).fields =
      l.fields ++ c.fields.filter
        (fun f => !(l.fields.any (fun g => nameOfQueryField g == nameOfQueryField f))) := by
  cases c with
  | mk kc fc flc lc obc bc =>
    cases l with
    | mk kl fl2 fll ll obl bl =>
      cases bl <;> cases fll <;> cases ll <;> cases obl <;>
        simp [mergeStageTotal, apply_ite]

/-- The deduplicating filter union keeps exactly the source texts of both
sides. -/
theorem mem_filterCodes_union (A fl : List FilterExpression) (cstr : String) :
    cstr ∈ filterCodes (A ++ fl.filter (fun (f : FilterExpression) =>
        !(A.any (fun (e : FilterExpression) => e.code == f.code)))) ↔
      cstr ∈ filterCodes A ∨ cstr ∈ filterCodes fl := by
  simp only [filterCodes, List.map_append, List.mem_append, List.mem_map,
    List.mem_filter]
  constructor
  · rintro (⟨f, hf, rfl⟩ | ⟨f, ⟨hf, _⟩, rfl⟩)
    · exact .inl ⟨f, hf, rfl⟩
    · exact .inr ⟨f, hf, rfl⟩
  · rintro (⟨f, hf, rfl⟩ | ⟨f, hf, rfl⟩)
    · exact .inl ⟨f, hf, rfl⟩
    · by_cases hA : A.any (fun (e : FilterExpression) => e.code == f.code) = true
      · rw [List.any_eq_true] at hA
        obtain ⟨e, he, hcode⟩ := hA
        exact .inl ⟨e, he, by simpa using hcode⟩
      · exact .inr ⟨f, ⟨hf, by simp [hA]⟩, rfl⟩

/-- With duplicate-free source texts on both sides, the union stays
duplicate-free. -/
theorem nodup_filterCodes_union (A fl : List FilterExpression)
    (h1 : (filterCodes A).Nodup) (h2 : (filterCodes fl).Nodup) :
    (filterCodes (A ++ fl.filter (fun (f : FilterExpression) =>
      !(A.any (fun (e : FilterExpression) => e.code == f.code))))).Nodup := by
  simp only [filterCodes, List.map_append] at *
  rw [List.nodup_append]
  refine ⟨h1, ?_, ?_⟩
  · exact h2.sublist ((List.filter_sublist fl).map _)
  · intro x hx hy
    simp only [List.mem_map, List.mem_filter] at hx hy
    obtain ⟨e, he, rfl⟩ := hx
    obtain ⟨f, ⟨hf, hkeep⟩, hef⟩ := hy
    have : A.any (fun (g : FilterExpression) => g.code == f.code) = true :=
      List.any_eq_true.mpr ⟨e, he, by simp [hef]⟩
    simp [this] at hkeep

/-- Claim C6: when both the loaded definition and the current tree have a
stage 0, the merged stage 0 takes the loaded (non-zero) limit, its filter
source texts are exactly the union of both lists (duplicate-free when both
inputs are), and its field list is the loaded fields followed by the
existing fields whose display name collides with no loaded field. -/
theorem claim_C6_theorem (proj : StructDef → Stage → StructDef)
    (st st1 : QueryBuilderState) (qp dn : String) (da : Option String)
    (c0 l0 : Stage) (cs ls : List Stage) (n : Nat)
    (hget : getField proj st.source st.source qp = .ok (.turtle dn da (l0 :: ls)))
    (hcur : st.query.pipeline = c0 :: cs)
    (hsucc : loadQueryOp proj st qp = .ok st1)
    (hlim : l0.limit = some n) (hn : n ≠ 0)
    (hnd1 : (filterCodes (c0.filterList.getD [])).Nodup)
    (hnd2 : (filterCodes (l0.filterList.getD [])).Nodup) :
    ∃ ms, st1.query.pipeline = mergeStageTotal c0 l0 :: ms ∧
      (mergeStageTotal c0 l0).limit = some n ∧
      (∀ cstr, cstr ∈ filterCodes ((mergeStageTotal c0 l0).filterList.getD []) ↔
        cstr ∈ filterCodes (c0.filterList.getD []) ∨
        cstr ∈ filterCodes (l0.filterList.getD [])) ∧
      (filterCodes ((mergeStageTotal c0 l0).filterList.getD [])).Nodup ∧
      (mergeStageTotal c0 l0).fields =
        l0.fields ++ c0.fields.filter
          (fun f => !(l0.fields.any
            (fun g => nameOfQueryField g == nameOfQueryField f))) := by
  simp only [loadQueryOp, hget, hcur] at hsucc
  split at hsucc
  · cases hsucc
  · rename_i pipe hm
    cases hsucc
    simp only [mergePipelines] at hm
    split at hm
    · cases hm
    · rename_i m0 hms
      split at hm
      · cases hm
      · rename_i rest hrest
        cases hm
        simp only [mergeStage] at hms
        split at hms
        · cases hms
          refine ⟨rest, rfl, ?_, ?_, ?_, mergeStageTotal_fields c0 l0⟩
          · rw [mergeStageTotal_limit, hlim]
            simp [hn]
          · intro cstr
            rw [mergeStageTotal_filterList]
            cases hfl : l0.filterList with
            | none => simp [filterCodes]
            | some fl =>
              simpa using mem_filterCodes_union (c0.filterList.getD []) fl cstr
          · rw [mergeStageTotal_filterList]
            cases hfl : l0.filterList with
            | none => simpa using hnd1
            | some fl =>
              have := nodup_filterCodes_union (c0.filterList.getD []) fl hnd1
                (by rw [hfl] at hnd2; simpa using hnd2)
              simpa using this
        · cases hms

/-- Witness for C6: Scenario C of the spec — loading by_region (limit 10)
into a current stage 0 without a limit yields limit 10, unioned filters, and
loaded fields before the retained non-colliding field. -/
theorem claim_C6_witness :
    getField projId exStateC6.source exStateC6.source "by_region" =
      .ok (.turtle "by_region" none [exC6loaded]) ∧
    exStateC6.query.pipeline = [exC6cur] ∧
    (mergeStageTotal exC6cur exC6loaded).limit = some 10 ∧
    (mergeStageTotal exC6cur exC6loaded).fields = [.path "age", .path "total"] ∧
    filterCodes ((mergeStageTotal exC6cur exC6loaded).filterList.getD []) =
      ["total > 0", "age > 1"] := by
  obtain ⟨ms, h1, h2, h3, h4, h5⟩ := claim_C6_theorem projId exStateC6
    ⟨exStateC6.source,
      ⟨"by_region", none,
        [.mk .reduce [.path "age", .path "total"]
          (some [⟨"total > 0"⟩, ⟨"age > 1"⟩]) (some 10) none none]⟩⟩
    "by_region" "by_region" none exC6cur exC6loaded [] [] 10
    rfl rfl rfl rfl (by decide) (by decide) (by decide)
  exact ⟨rfl, rfl, h2, h5.trans (by rfl), by rfl⟩

/-- Counterexample to C3 as stated: toggling "age" twice on a stage whose
fields are [total (calculation), age (dimension)] removes age and re-inserts
it at its rank position — BEFORE the calculation — so the final sequence
differs from the original. -/
theorem claim_C3_counterexample :
    (applyEditOps projId [.toggleField rootPath "age", .toggleField rootPath "age"]
        exStateC3).query.pipeline.map (fun s => s.fields.map nameOfQueryField) =
      [["age", "total"]] ∧
    exStateC3.query.pipeline.map (fun s => s.fields.map nameOfQueryField) =
      [["total", "age"]] ∧
    (["age", "total"] : List String) ≠ ["total", "age"] := by
  exact ⟨rfl, rfl, by decide⟩

/-- Claim C3 as amended: `toggleField(path, x)` applied twice restores the
original field sequence whenever the stage holds no top-level bare-name match
of x beforehand (toggle-on then toggle-off); when a match is present, the
double toggle removes and re-adds the field at its rank-determined insertion
position, which need not be its original one. -/
theorem claim_C3_theorem (proj : StructDef → Stage → StructDef)
    (st : QueryBuilderState) (p : StagePath) (x : String) (s : Stage)
    (hs : stageAtPipeline p.hops p.last st.query.pipeline = .ok s)
    (habs : ∀ f ∈ s.fields, isBareMatch x f = false) :
    ∃ s2, stageAtPipeline p.hops p.last
        (applyEditOp proj (.toggleField p x)
          (applyEditOp proj (.toggleField p x) st)).query.pipeline = .ok s2 ∧
      s2.fields = s.fields := by
  have hae := autoExpand_of_stageAt_ok proj st p s hs
  have hfind : s.fields.findIdx? (isBareMatch x) = none :=
    List.findIdx?_eq_none_iff.mpr habs
  obtain ⟨src, hsrc⟩ := sourceForStageAtPathAux_ok proj p.hops p.last
    st.query.pipeline st.source s hs
  cases hres : getField proj st.source src x with
  | error e =>
    have hidx : getIndexToInsertNewField proj st p (.path x) = .error e := by
      simp [getIndexToInsertNewField, hs, hsrc, fieldDefForQueryFieldDef, hres]
    have htog : toggleFieldOp proj st p x = .error e := by
      simp [toggleFieldOp, hae, hs, hfind, addFieldOp, insertFieldOp, hidx]
    have happ : applyEditOp proj (.toggleField p x) st = st := by
      simp [applyEditOp, runEditOp, htog]
    rw [happ, happ]
    exact ⟨s, hs, rfl⟩
  | ok fd =>
    set idx := scanInsert proj st.source src (sortOrder fd) s.fields with hidxdef
    have hle : idx ≤ s.fields.length := scanInsert_le proj st.source src _ _
    have hidx : getIndexToInsertNewField proj st p (.path x) = .ok idx := by
      simp [getIndexToInsertNewField, hs, hsrc, fieldDefForQueryFieldDef, hres]
    set s1 := s.withFields (spliceInsert idx (.path x) s.fields) with hs1def
    set st1 := updateStageAt st p s1 with hst1def
    have htog1 : toggleFieldOp proj st p x = .ok st1 := by
      simp [toggleFieldOp, hae, hs, hfind, addFieldOp, insertFieldOp, hidx, hae]
    have happ1 : applyEditOp proj (.toggleField p x) st = st1 := by
      simp [applyEditOp, runEditOp, htog1]
    have hs1 : stageAtPipeline p.hops p.last st1.query.pipeline = .ok s1 :=
      stageAtPipeline_setStageAt p.hops p.last st.query.pipeline s s1 hs
    have hae1 := autoExpand_of_stageAt_ok proj st1 p s1 hs1
    have hfind1 : s1.fields.findIdx? (isBareMatch x) = some idx := by
      rw [hs1def]
      rw [Stage.fields_withFields]
      exact findIdx?_spliceInsert idx (.path x) s.fields (isBareMatch x) hle
        (by simp [isBareMatch]) habs
    have hf1 : s1.fields[idx]? = some (.path x) := by
      rw [hs1def, Stage.fields_withFields]
      exact getElem?_spliceInsert_self idx (.path x) s.fields hle
    set s2 := (match s1.kind, s1.orderBy with
      | StageType.reduce, some ob =>
        s1.withOrderBy (some (removeFirstOrderBy ob (nameOfQueryField (.path x))))
      | _, _ => s1).withFields (s1.fields.eraseIdx idx) with hs2def
    have hrem : removeFieldOp st1 p idx = .ok (updateStageAt st1 p s2) :=
      removeFieldOp_spec st1 p s1 idx (.path x) hs1 hf1
    have htog2 : toggleFieldOp proj st1 p x = .ok (updateStageAt st1 p s2) := by
      simp [toggleFieldOp, hae1, hs1, hfind1, hrem]
    have happ2 : applyEditOp proj (.toggleField p x) st1 = updateStageAt st1 p s2 := by
      simp [applyEditOp, runEditOp, htog2]
    rw [happ1, happ2]
    refine ⟨s2, ?_, ?_⟩
    · exact stageAtPipeline_setStageAt p.hops p.last st1.query.pipeline s1 s2 hs1
    · rw [hs2def, Stage.fields_withFields, hs1def, Stage.fields_withFields]
      exact eraseIdx_spliceInsert idx (.path x) s.fields hle

/-- Witness for the amended C3: on an empty stage (no bare match of age),
toggling age twice restores the original (empty) field sequence. -/
theorem claim_C3_witness :
    stageAtPipeline rootPath.hops rootPath.last exStateC7.query.pipeline =
      .ok (exStage []) ∧
    (match stageAtPipeline rootPath.hops rootPath.last
        (applyEditOp projId (.toggleField rootPath "age")
          (applyEditOp projId (.toggleField rootPath "age")
            exStateC7)).query.pipeline with
      | .ok s2 => s2.fields
      | .error _ => [.path "unreachable"]) = (exStage []).fields := by
  refine ⟨rfl, ?_⟩
  obtain ⟨s2, h1, h2⟩ := claim_C3_theorem projId exStateC7 rootPath "age"
    (exStage []) rfl (by intro f hf; simp [exStage] at hf)
  rw [h1]
  exact h2

/-- Claim C4: `addFilter` through a stage path whose addressed field is a
bare-name reference resolving to a nested query in the schema promotes that
field in place to an explicit nested-query definition equal to the schema's
(deep-copied, hence value-independent), with the filter landing inside the
promoted copy's first stage; the schema itself is untouched by this and by
every later editor operation. -/
theorem claim_C4_theorem (proj : StructDef → Stage → StructDef)
    (st : QueryBuilderState) (fi : Nat) (x tn : String) (ta : Option String)
    (tp : List Stage) (s0 t0 : Stage) (rest trest : List Stage)
    (flt : FilterExpression)
    (h0 : st.query.pipeline = s0 :: rest)
    (h1 : s0.fields[fi]? = some (.path x))
    (h2 : findByName st.source.fields x = some (.turtle tn ta tp))
    (h3 : splitDots x = [x])
    (h4 : tp = t0 :: trest) :
    addFilterOp proj st ⟨[(0, fi)], 0⟩ flt =
      .ok (st.withPipeline
        ((s0.withFields (s0.fields.set fi
          (.defn (.turtle tn ta
            ((t0.withFilterList (some (t0.filterList.getD [] ++ [flt]))) :: trest)))))
          :: rest)) ∧
    (st.withPipeline
        ((s0.withFields (s0.fields.set fi
          (.defn (.turtle tn ta
            ((t0.withFilterList (some (t0.filterList.getD [] ++ [flt]))) :: trest)))))
          :: rest)).source = st.source ∧
    (∀ ops : List EditOp,
      (applyEditOps proj ops (st.withPipeline
        ((s0.withFields (s0.fields.set fi
          (.defn (.turtle tn ta
            ((t0.withFilterList (some (t0.filterList.getD [] ++ [flt]))) :: trest)))))
          :: rest))).source = st.source) := by
  have hlt : fi < s0.fields.length := getElem?_some_lt h1
  refine ⟨?_, rfl, fun ops => (applyEditOps_source proj ops _).trans rfl⟩
  obtain ⟨src0, q⟩ := st
  obtain ⟨qn, qa, qpipe⟩ := q
  simp only at h0 h2
  subst h0
  subst h4
  simp only [addFilterOp, autoExpandStageAtPath, stageAtPipeline,
    List.getElem?_cons_zero, h1, sourceForStageAtPathAux, Nat.zero_le, if_true,
    List.take_zero, projectPipeline, List.foldl_nil, fieldDefForQueryFieldDef,
    getField, h3, getFieldAux, h2, replaceWithDefinition, updateStageAt,
    QueryBuilderState.withPipeline, TurtleDef.withPipeline, setStageAt,
    List.set_cons_zero, List.getElem?_set_self hlt, List.set_set,
    Stage.fields_withFields]
  cases s0
  rfl

/-- Witness for C4: the bare reference "nested" in stage 0 is promoted to the
schema's nested-query definition with the filter added inside the copy. -/
theorem claim_C4_witness :
    exStateC4.query.pipeline = [exStage [.path "nested"]] ∧
    (exStage [.path "nested"]).fields[0]? = some (.path "nested") ∧
    findByName exStateC4.source.fields "nested" =
      some (.turtle "nested" none [exStage [.path "age"]]) ∧
    addFilterOp projId exStateC4 ⟨[(0, 0)], 0⟩ ⟨"age > 1"⟩ =
      .ok (exStateC4.withPipeline
        [(exStage [.path "nested"]).withFields
          ([QueryFieldDef.path "nested"].set 0
            (.defn (.turtle "nested" none
              [(exStage [.path "age"]).withFilterList
                (some ((exStage [.path "age"]).filterList.getD [] ++ [⟨"age > 1"⟩]))])))]) := by
  refine ⟨rfl, rfl, rfl, ?_⟩
  exact (claim_C4_theorem projId exStateC4 0 "nested" "nested" none
    [exStage [.path "age"]] (exStage [.path "nested"]) (exStage [.path "age"])
    [] [] ⟨"age > 1"⟩ rfl rfl rfl rfl rfl).1

theorem TurtleDef.pipeline_withPipeline (q : TurtleDef) (x : List Stage) :
    (q.withPipeline x).pipeline = x := by
  cases q
  rfl

theorem treeWF_iff {q : TurtleDef} :
    treeWF q = true ↔ q.pipeline ≠ [] ∧ stageListWF q.pipeline = true := by
  cases q with
  | mk n a pipe =>
    simp [treeWF, Bool.and_eq_true, List.isEmpty_iff]

theorem updateStageAt_wf {st : QueryBuilderState} {p : StagePath} {s : Stage}
    (hw : treeWF st.query = true) (hs : stageWF s = true) :
    treeWF (updateStageAt st p s).query = true := by
  obtain ⟨hne, hwf⟩ := treeWF_iff.mp hw
  have hq : (updateStageAt st p s).query =
      st.query.withPipeline (setStageAt p.hops p.last st.query.pipeline s) := rfl
  rw [hq, treeWF_iff, TurtleDef.pipeline_withPipeline]
  refine ⟨?_, setStageAt_wf p.hops p.last st.query.pipeline s hwf hs⟩
  intro hcon
  apply hne
  have hlen := setStageAt_length p.hops p.last st.query.pipeline s
  rw [hcon] at hlen
  simp only [List.length_nil] at hlen
  exact List.eq_nil_of_length_eq_zero hlen.symm

theorem projectPipeline_wf {proj : StructDef → Stage → StructDef}
    (hp : ProjWF proj) {src : StructDef} (hs : schemaWF src = true)
    (pipe : List Stage) : schemaWF (projectPipeline proj src pipe) = true := by
  induction pipe generalizing src with
  | nil => exact hs
  | cons st rest ih =>
    simp only [projectPipeline, List.foldl_cons]
    exact ih (hp src st hs)

theorem findByName_mem {fields : List FieldDef} {nm : String} {d : FieldDef}
    (h : findByName fields nm = some d) : d ∈ fields :=
  List.mem_of_find?_eq_some h

theorem getFieldAux_wf {proj : StructDef → Stage → StructDef}
    (hp : ProjWF proj) {root : StructDef} (hroot : schemaWF root = true)
    (parts : List String) {src : StructDef} (hsrc : schemaWF src = true)
    {fd : FieldDef} (h : getFieldAux proj root parts src = .ok fd) :
    fdWF fd = true := by
  induction parts generalizing src with
  | nil => cases h
  | cons hd tl ih =>
    cases tl with
    | nil =>
      simp only [getFieldAux] at h
      split at h
      · cases h
        rename_i hfind
        exact fdListWF_iff.mp hsrc _ (findByName_mem hfind)
      · cases h
    | cons hd2 tl2 =>
      simp only [getFieldAux] at h
      split at h
      · cases h
      · rename_i n a fs hfind
        have hmem := fdListWF_iff.mp hsrc _ (findByName_mem hfind)
        have hfs : fdListWF fs = true := by simpa [fdWF] using hmem
        exact ih (by simpa [schemaWF] using hfs) h
      · rename_i n a pipe hfind
        exact ih (projectPipeline_wf hp hroot pipe) h
      · cases h

theorem getField_wf {proj : StructDef → Stage → StructDef}
    (hp : ProjWF proj) {root src : StructDef} (hroot : schemaWF root = true)
    (hsrc : schemaWF src = true) {nm : String} {fd : FieldDef}
    (h : getField proj root src nm = .ok fd) : fdWF fd = true :=
  getFieldAux_wf hp hroot _ hsrc h

theorem replaceWithDefinition_wf {st st1 : QueryBuilderState} {p : StagePath}
    {fi : Nat} (hw : treeWF st.query = true) (hs : schemaWF st.source = true)
    (h : replaceWithDefinition st p fi = .ok st1) : treeWF st1.query = true := by
  simp only [replaceWithDefinition] at h
  split at h
  · cases h
  · rename_i s hstage
    split at h
    · rename_i fname hf
      split at h
      · rename_i d hfind
        cases h
        have hswf : stageWF s = true :=
          stageAtPipeline_wf p.hops p.last st.query.pipeline s
            (treeWF_iff.mp hw).2 hstage
        have hdwf : fdWF d = true := fdListWF_iff.mp hs _ (findByName_mem hfind)
        refine updateStageAt_wf hw ?_
        rw [stageWF_withFields]
        exact qfdListWF_set (stageWF_fields.mp hswf) (by simpa [qfdWF] using hdwf)
      · cases h
    · cases h

theorem autoExpand_wf {proj : StructDef → Stage → StructDef}
    {st st1 : QueryBuilderState} {p : StagePath} {s : Stage}
    (hw : treeWF st.query = true) (hs : schemaWF st.source = true)
    (h : autoExpandStageAtPath proj st p = .ok (st1, s)) :
    treeWF st1.query = true ∧ stageWF s = true := by
  simp only [autoExpandStageAtPath] at h
  split at h
  · cases h
    rename_i hstage
    exact ⟨hw, stageAtPipeline_wf p.hops p.last st.query.pipeline s
      (treeWF_iff.mp hw).2 hstage⟩
  · split at h
    · cases h
    · split at h
      · cases h
      · split at h
        · cases h
        · split at h
          · cases h
          · rename_i st2 hrep
            split at h
            · rename_i s2 hstage2
              cases h
              have hw2 := replaceWithDefinition_wf hw hs hrep
              exact ⟨hw2, stageAtPipeline_wf p.hops p.last _ _
                (treeWF_iff.mp hw2).2 hstage2⟩
            · cases h
        · cases h
  · cases h

theorem qfdListWF_eraseIdx {l : List QueryFieldDef} {i : Nat}
    (h : qfdListWF l = true) : qfdListWF (l.eraseIdx i) = true :=
  qfdListWF_iff.mpr (fun f hf =>
    qfdListWF_iff.mp h f ((List.eraseIdx_sublist l i).mem hf))

theorem qfdListWF_append {a b : List QueryFieldDef} :
    qfdListWF (a ++ b) = true ↔ qfdListWF a = true ∧ qfdListWF b = true := by
  simp only [qfdListWF_iff, List.mem_append]
  constructor
  · intro h
    exact ⟨fun f hf => h f (.inl hf), fun f hf => h f (.inr hf)⟩
  · rintro ⟨h1, h2⟩ f (hf | hf)
    · exact h1 f hf
    · exact h2 f hf

theorem stageListWF_append {a b : List Stage} :
    stageListWF (a ++ b) = true ↔ stageListWF a = true ∧ stageListWF b = true := by
  simp only [stageListWF_iff, List.mem_append]
  constructor
  · intro h
    exact ⟨fun f hf => h f (.inl hf), fun f hf => h f (.inr hf)⟩
  · rintro ⟨h1, h2⟩ f (hf | hf)
    · exact h1 f hf
    · exact h2 f hf

theorem selectFields_mem {l : List QueryFieldDef} {order : List Nat}
    {out : List QueryFieldDef}
    (h : selectFields l order = some out) : ∀ f ∈ out, f ∈ l := by
  induction order generalizing out with
  | nil =>
    cases h
    simp
  | cons i rest ih =>
    simp only [selectFields] at h
    split at h
    · cases h
    · rename_i f0 hg
      split at h
      · cases h
      · rename_i out2 hrest
        cases h
        intro f hf
        rcases List.mem_cons.mp hf with rfl | hf2
        · exact List.getElem?_mem hg
        · exact ih hrest f hf2

theorem mergeStageTotal_wf {c l : Stage} (hc : stageWF c = true)
    (hl : stageWF l = true) : stageWF (mergeStageTotal c l) = true := by
  rw [stageWF_fields, mergeStageTotal_fields, qfdListWF_append]
  refine ⟨stageWF_fields.mp hl, ?_⟩
  refine qfdListWF_iff.mpr (fun f hf => ?_)
  exact qfdListWF_iff.mp (stageWF_fields.mp hc) f ((List.filter_sublist _).mem hf)

theorem mergePipelines_wf {cur dp pipe : List Stage}
    (hc : stageListWF cur = true) (hd : stageListWF dp = true)
    (h : mergePipelines cur dp = .ok pipe) :
    stageListWF pipe = true ∧ (cur ≠ [] → pipe ≠ []) := by
  induction dp generalizing cur pipe with
  | nil =>
    cases cur with
    | nil =>
      cases h
      exact ⟨hc, fun hcon => absurd rfl hcon⟩
    | cons c cs =>
      cases h
      exact ⟨hc, fun _ => by simp⟩
  | cons l ls ih =>
    have hlwf : stageWF l = true := by
      simp [stageListWF, Bool.and_eq_true] at hd
      exact hd.1
    have hlswf : stageListWF ls = true := by
      simp [stageListWF, Bool.and_eq_true] at hd
      exact hd.2
    cases cur with
    | nil =>
      simp only [mergePipelines] at h
      split at h
      · cases h
      · rename_i rest hrest
        cases h
        have := ih (by simp [stageListWF]) hlswf hrest
        refine ⟨?_, fun _ => by simp⟩
        simp [stageListWF, Bool.and_eq_true, hlwf, this.1]
    | cons c cs =>
      have hcwf : stageWF c = true := by
        simp [stageListWF, Bool.and_eq_true] at hc
        exact hc.1
      have hcswf : stageListWF cs = true := by
        simp [stageListWF, Bool.and_eq_true] at hc
        exact hc.2
      simp only [mergePipelines] at h
      split at h
      · cases h
      · rename_i m hm
        split at h
        · cases h
        · rename_i rest hrest
          cases h
          have hmwf : stageWF m = true := by
            simp only [mergeStage] at hm
            split at hm
            · cases hm
              exact mergeStageTotal_wf hcwf hlwf
            · cases hm
          have := ih hcswf hlswf hrest
          refine ⟨?_, fun _ => by simp⟩
          simp [stageListWF, Bool.and_eq_true, hmwf, this.1]

theorem insertFieldOp_wf {proj : StructDef → Stage → StructDef}
    {st st1 : QueryBuilderState} {p : StagePath} {q : QueryFieldDef}
    (hw : treeWF st.query = true) (hs : schemaWF st.source = true)
    (hq : qfdWF q = true)
    (h : insertFieldOp proj st p q = .ok st1) : treeWF st1.query = true := by
  simp only [insertFieldOp] at h
  split at h
  · cases h
  · rename_i st2 s hae
    split at h
    · cases h
    · rename_i i hi
      cases h
      obtain ⟨hw2, hswf⟩ := autoExpand_wf hw hs hae
      refine updateStageAt_wf hw2 ?_
      rw [stageWF_withFields]
      refine qfdListWF_iff.mpr (fun f hf => ?_)
      rcases mem_spliceInsert hf with rfl | hf2
      · exact hq
      · exact qfdListWF_iff.mp (stageWF_fields.mp hswf) f hf2

theorem addFieldOp_wf {proj : StructDef → Stage → StructDef}
    {st st1 : QueryBuilderState} {p : StagePath} {fp : String}
    (hw : treeWF st.query = true) (hs : schemaWF st.source = true)
    (h : addFieldOp proj st p fp = .ok st1) : treeWF st1.query = true := by
  have hq : qfdWF (QueryFieldDef.path fp) = true := rfl
  exact insertFieldOp_wf hw hs hq h

theorem removeFieldOp_wf {st st1 : QueryBuilderState} {p : StagePath}
    {i : Nat} (hw : treeWF st.query = true)
    (h : removeFieldOp st p i = .ok st1) : treeWF st1.query = true := by
  have hfields : ∀ s : Stage,
      stageAtPipeline p.hops p.last st.query.pipeline = .ok s →
      qfdListWF (s.fields.eraseIdx i) = true := by
    intro s hstage
    exact qfdListWF_eraseIdx (stageWF_fields.mp
      (stageAtPipeline_wf p.hops p.last st.query.pipeline s
        (treeWF_iff.mp hw).2 hstage))
  simp only [removeFieldOp] at h
  split at h
  · cases h
  · rename_i s hstage
    split at h
    · split at h
      · cases h
        exact updateStageAt_wf hw (by rw [stageWF_withFields]; exact hfields s hstage)
      · split at h
        · cases h
        · cases h
          exact updateStageAt_wf hw (by rw [stageWF_withFields]; exact hfields s hstage)
    · cases h
      exact updateStageAt_wf hw (by rw [stageWF_withFields]; exact hfields s hstage)

theorem toggleFieldOp_wf {proj : StructDef → Stage → StructDef}
    {st st1 : QueryBuilderState} {p : StagePath} {fp : String}
    (hw : treeWF st.query = true) (hs : schemaWF st.source = true)
    (h : toggleFieldOp proj st p fp = .ok st1) : treeWF st1.query = true := by
  simp only [toggleFieldOp] at h
  split at h
  · cases h
  · rename_i st2 s hae
    obtain ⟨hw2, _⟩ := autoExpand_wf hw hs hae
    have hs2 : schemaWF st2.source = true := by
      rw [autoExpand_source hae]
      exact hs
    split at h
    · cases h
    · split at h
      · exact removeFieldOp_wf hw2 h
      · exact addFieldOp_wf hw2 hs2 h

theorem reorderFieldsOp_wf {st st1 : QueryBuilderState} {p : StagePath}
    {order : List Nat} (hw : treeWF st.query = true)
    (h : reorderFieldsOp st p order = .ok st1) : treeWF st1.query = true := by
  simp only [reorderFieldsOp] at h
  split at h
  · cases h
  · rename_i s hstage
    split at h
    · cases h
    · rename_i newFields hsel
      cases h
      have hswf : stageWF s = true :=
        stageAtPipeline_wf p.hops p.last st.query.pipeline s
          (treeWF_iff.mp hw).2 hstage
      refine updateStageAt_wf hw ?_
      rw [stageWF_withFields]
      exact qfdListWF_iff.mpr (fun f hf =>
        qfdListWF_iff.mp (stageWF_fields.mp hswf) f (selectFields_mem hsel f hf))

theorem renameFieldOp_wf {st st1 : QueryBuilderState} {p : StagePath}
    {i : Nat} {nm : String} (hw : treeWF st.query = true)
    (h : renameFieldOp st p i nm = .ok st1) : treeWF st1.query = true := by
  simp only [renameFieldOp] at h
  split at h
  · cases h
  · rename_i s hstage
    split at h
    · split at h
      · cases h
      · rename_i f hf
        cases h
        have hswf : stageWF s = true :=
          stageAtPipeline_wf p.hops p.last st.query.pipeline s
            (treeWF_iff.mp hw).2 hstage
        have hfwf : qfdWF f = true :=
          qfdListWF_iff.mp (stageWF_fields.mp hswf) f (List.getElem?_mem hf)
        refine updateStageAt_wf hw ?_
        rw [stageWF_withFields]
        have hbase : qfdListWF
            (match s.orderBy with
              | some ob => s.withOrderBy (some (renameOrderBy (nameOfQueryField f) nm ob))
              | none => s).fields = true := by
          split
          · rw [Stage.fields_withOrderBy]
            exact stageWF_fields.mp hswf
          · exact stageWF_fields.mp hswf
        refine qfdListWF_set hbase ?_
        split
        · rfl
        · rfl
        · rename_i d heq
          simpa [qfdWF, fdWF_withAsName] using hfwf
    · cases h

theorem stageAt_stageWF {st : QueryBuilderState} {p : StagePath} {s : Stage}
    (hw : treeWF st.query = true)
    (hstage : stageAtPipeline p.hops p.last st.query.pipeline = .ok s) :
    stageWF s = true :=
  stageAtPipeline_wf p.hops p.last st.query.pipeline s (treeWF_iff.mp hw).2 hstage

theorem addFilterOp_wf {proj : StructDef → Stage → StructDef}
    {st st1 : QueryBuilderState} {p : StagePath} {f : FilterExpression}
    (hw : treeWF st.query = true) (hs : schemaWF st.source = true)
    (h : addFilterOp proj st p f = .ok st1) : treeWF st1.query = true := by
  simp only [addFilterOp] at h
  split at h
  · cases h
  · rename_i st2 s hae
    cases h
    obtain ⟨hw2, hswf⟩ := autoExpand_wf hw hs hae
    exact updateStageAt_wf hw2 (by rw [stageWF_withFilterList]; exact hswf)

theorem editFilterOp_wf {st st1 : QueryBuilderState} {p : StagePath}
    {fi : Option Nat} {idx : Nat} {f : FilterExpression}
    (hw : treeWF st.query = true)
    (h : editFilterOp st p fi idx f = .ok st1) : treeWF st1.query = true := by
  simp only [editFilterOp] at h
  split at h
  · cases h
  · rename_i s hstage
    have hswf := stageAt_stageWF hw hstage
    repeat' split at h
    all_goals cases h <;>
      first
        | exact hw
        | exact updateStageAt_wf hw (by rw [stageWF_withFilterList]; exact hswf)
        | (refine updateStageAt_wf hw ?_
           rw [stageWF_withFields]
           exact qfdListWF_set (stageWF_fields.mp hswf) rfl)

theorem removeFilterOp_wf {st st1 : QueryBuilderState} {p : StagePath}
    {idx : Nat} {fi : Option Nat} (hw : treeWF st.query = true)
    (h : removeFilterOp st p idx fi = .ok st1) : treeWF st1.query = true := by
  simp only [removeFilterOp] at h
  split at h
  · cases h
  · rename_i s hstage
    have hswf := stageAt_stageWF hw hstage
    repeat' split at h
    all_goals cases h <;>
      first
        | exact hw
        | exact updateStageAt_wf hw (by rw [stageWF_withFilterList]; exact hswf)
        | (refine updateStageAt_wf hw ?_
           rw [stageWF_withFields]
           exact qfdListWF_set (stageWF_fields.mp hswf) rfl)

theorem addLimitOp_wf {proj : StructDef → Stage → StructDef}
    {st st1 : QueryBuilderState} {p : StagePath} {n : Nat}
    {b : Option SchemaField} {d : Option OrderDirection}
    (hw : treeWF st.query = true) (hs : schemaWF st.source = true)
    (h : addLimitOp proj st p n b d = .ok st1) : treeWF st1.query = true := by
  simp only [addLimitOp] at h
  split at h
  · cases h
  · rename_i st2 s hae
    obtain ⟨hw2, hswf⟩ := autoExpand_wf hw hs hae
    split at h
    · split at h
      · cases h
        exact updateStageAt_wf hw2
          (by rw [stageWF_withOrderBy, stageWF_withLimit]; exact hswf)
      · cases h
        exact updateStageAt_wf hw2 (by rw [stageWF_withLimit]; exact hswf)
    · cases h

theorem removeLimitOp_wf {st st1 : QueryBuilderState} {p : StagePath}
    (hw : treeWF st.query = true)
    (h : removeLimitOp st p = .ok st1) : treeWF st1.query = true := by
  simp only [removeLimitOp] at h
  split at h
  · cases h
  · rename_i s hstage
    cases h
    exact updateStageAt_wf hw
      (by rw [stageWF_withLimit]; exact stageAt_stageWF hw hstage)

theorem addOrderByOp_wf {proj : StructDef → Stage → StructDef}
    {st st1 : QueryBuilderState} {p : StagePath} {i : Nat}
    {d : Option OrderDirection}
    (hw : treeWF st.query = true) (hs : schemaWF st.source = true)
    (h : addOrderByOp proj st p i d = .ok st1) : treeWF st1.query = true := by
  simp only [addOrderByOp] at h
  split at h
  · cases h
  · rename_i st2 s hae
    obtain ⟨hw2, hswf⟩ := autoExpand_wf hw hs hae
    split at h
    · split at h
      · cases h
      · cases h
        exact updateStageAt_wf hw2 (by rw [stageWF_withOrderBy]; exact hswf)
    · cases h

theorem editOrderByOp_wf {st st1 : QueryBuilderState} {p : StagePath}
    {i : Nat} {d : Option OrderDirection} (hw : treeWF st.query = true)
    (h : editOrderByOp st p i d = .ok st1) : treeWF st1.query = true := by
  simp only [editOrderByOp] at h
  split at h
  · cases h
  · rename_i s hstage
    split at h
    · split at h
      · cases h
      · cases h
        exact updateStageAt_wf hw
          (by rw [stageWF_withOrderBy]; exact stageAt_stageWF hw hstage)
    · cases h

theorem removeOrderByOp_wf {st st1 : QueryBuilderState} {p : StagePath}
    {i : Nat} (hw : treeWF st.query = true)
    (h : removeOrderByOp st p i = .ok st1) : treeWF st1.query = true := by
  simp only [removeOrderByOp] at h
  split at h
  · cases h
  · rename_i s hstage
    split at h
    · split at h
      · cases h
        exact updateStageAt_wf hw
          (by rw [stageWF_withOrderBy]; exact stageAt_stageWF hw hstage)
      · cases h
        exact hw
    · cases h

theorem pushStage_wf {st : QueryBuilderState} {p : StagePath} {parent : Stage}
    {fi : Nat} {n : String} {a : Option String} {sub : List Stage}
    (hw : treeWF st.query = true)
    (hstage : stageAtPipeline p.hops p.last st.query.pipeline = .ok parent)
    (hf : parent.fields[fi]? = some (.defn (.turtle n a sub))) :
    treeWF (updateStageAt st p (parent.withFields (parent.fields.set fi
      (.defn (.turtle n a (sub ++ [emptyReduceStage])))))).query = true := by
  have hpwf := stageAt_stageWF hw hstage
  have hfwf : qfdWF (.defn (.turtle n a sub)) = true :=
    qfdListWF_iff.mp (stageWF_fields.mp hpwf) _ (List.getElem?_mem hf)
  have hsubwf : stageListWF sub = true := by
    simp [qfdWF, fdWF, Bool.and_eq_true] at hfwf
    exact hfwf.2
  refine updateStageAt_wf hw ?_
  rw [stageWF_withFields]
  refine qfdListWF_set (stageWF_fields.mp hpwf) ?_
  have : stageListWF (sub ++ [emptyReduceStage]) = true :=
    stageListWF_append.mpr ⟨hsubwf, rfl⟩
  simp [qfdWF, fdWF, this]

theorem addStageOp_wf {proj : StructDef → Stage → StructDef}
    {st st1 : QueryBuilderState} {p : Option StagePath} {fi : Option Nat}
    (hw : treeWF st.query = true) (hs : schemaWF st.source = true)
    (h : addStageOp proj st p fi = .ok st1) : treeWF st1.query = true := by
  simp only [addStageOp] at h
  split at h
  · cases h
    rw [treeWF_iff]
    constructor
    · have hq : (st.withPipeline (st.query.pipeline ++ [emptyReduceStage])).query.pipeline =
          st.query.pipeline ++ [emptyReduceStage] := TurtleDef.pipeline_withPipeline _ _
      rw [hq]
      simp
    · have hq : (st.withPipeline (st.query.pipeline ++ [emptyReduceStage])).query.pipeline =
          st.query.pipeline ++ [emptyReduceStage] := TurtleDef.pipeline_withPipeline _ _
      rw [hq]
      exact stageListWF_append.mpr ⟨(treeWF_iff.mp hw).2, rfl⟩
  · rename_i p2
    split at h
    · cases h
    · rename_i parent hstage
      split at h
      · cases h
      · split at h
        · cases h
        · rename_i field hf
          split at h
          · cases h
          · split at h
            · cases h
            · split at h
              · split at h
                · cases h
                · rename_i st2 hrep
                  split at h
                  · cases h
                  · rename_i parent1 hstage1
                    split at h
                    · rename_i n a sub hf1
                      cases h
                      have hw2 := replaceWithDefinition_wf hw hs hrep
                      exact pushStage_wf hw2 hstage1 hf1
                    · cases h
              · cases h
              · rename_i n a sub
                cases h
                exact pushStage_wf hw hstage hf
              · cases h
            · cases h

theorem withPipeline_query_pipeline (st : QueryBuilderState) (x : List Stage) :
    (st.withPipeline x).query.pipeline = x := by
  cases st with
  | mk src q =>
    cases q
    rfl

theorem removeStageOp_wf {st st1 : QueryBuilderState} {p : StagePath}
    (hw : treeWF st.query = true)
    (h : removeStageOp st p = .ok st1) : treeWF st1.query = true := by
  simp only [removeStageOp] at h
  split at h
  · cases h
    rw [treeWF_iff, withPipeline_query_pipeline]
    split
    · exact ⟨by simp, rfl⟩
    · rename_i hne
      refine ⟨by simpa [List.isEmpty_iff] using hne, ?_⟩
      exact stageListWF_iff.mpr (fun s hs =>
        stageListWF_iff.mp (treeWF_iff.mp hw).2 s
          ((List.eraseIdx_sublist _ _).mem hs))
  · rename_i si fi hlast
    split at h
    · cases h
    · rename_i parent hstage
      split at h
      · cases h
      · rename_i n a sub hf
        cases h
        have hpwf := @stageAt_stageWF st ⟨p.hops.dropLast, si⟩ parent hw hstage
        have hfwf : qfdWF (.defn (.turtle n a sub)) = true :=
          qfdListWF_iff.mp (stageWF_fields.mp hpwf) _ (List.getElem?_mem hf)
        have hsubwf : stageListWF sub = true := by
          simp [qfdWF, fdWF, Bool.and_eq_true] at hfwf
          exact hfwf.2
        refine updateStageAt_wf hw ?_
        rw [stageWF_withFields]
        refine qfdListWF_set (stageWF_fields.mp hpwf) ?_
        have hsub1 : stageListWF (sub.eraseIdx p.last) = true :=
          stageListWF_iff.mpr (fun s hs =>
            stageListWF_iff.mp hsubwf s ((List.eraseIdx_sublist _ _).mem hs))
        simp only [qfdWF, fdWF, Bool.and_eq_true]
        split
        · exact ⟨rfl, rfl⟩
        · rename_i hne
          refine ⟨?_, hsub1⟩
          simp only [Bool.not_eq_eq_eq_not, Bool.not_true]
          simpa [Bool.not_eq_true] using hne
      · cases h

theorem loadQueryOp_wf {proj : StructDef → Stage → StructDef}
    {st st1 : QueryBuilderState} {qp : String}
    (hp : ProjWF proj) (hw : treeWF st.query = true)
    (hs : schemaWF st.source = true)
    (h : loadQueryOp proj st qp = .ok st1) : treeWF st1.query = true := by
  simp only [loadQueryOp] at h
  split at h
  · cases h
  · rename_i dn da dp hget
    split at h
    · cases h
    · rename_i pipe hm
      cases h
      have hdwf : fdWF (.turtle dn da dp) = true := getField_wf hp hs hs hget
      have hdpwf : stageListWF dp = true := by
        simp [fdWF, Bool.and_eq_true] at hdwf
        exact hdwf.2
      obtain ⟨hpwf, hpne⟩ :=
        mergePipelines_wf (treeWF_iff.mp hw).2 hdpwf hm
      rw [treeWF_iff]
      exact ⟨hpne (treeWF_iff.mp hw).1, hpwf⟩
  · cases h

theorem replaceQueryOp_wf {st st1 : QueryBuilderState} {t : TurtleDef}
    (ht : stageListWF t.pipeline = true)
    (h : replaceQueryOp st t = .ok st1) : treeWF st1.query = true := by
  simp only [replaceQueryOp] at h
  split at h
  · cases h
  · rename_i s0 rest hpipe
    cases h
    rw [treeWF_iff]
    refine ⟨by simp, ?_⟩
    rw [hpipe] at ht
    simp only [stageListWF, Bool.and_eq_true] at ht ⊢
    exact ⟨by rw [stageWF_withFilterList]; exact ht.1, ht.2⟩

/-- Any successful editor operation with a well-formed argument preserves the
tree invariant. -/
theorem runEditOp_wf {proj : StructDef → Stage → StructDef} {op : EditOp}
    {st st1 : QueryBuilderState} (hp : ProjWF proj)
    (hw : treeWF st.query = true) (hs : schemaWF st.source = true)
    (hop : editOpWF op = true)
    (h : runEditOp proj op st = .ok st1) : treeWF st1.query = true := by
  cases op with
  | addField p fp => exact addFieldOp_wf hw hs h
  | toggleField p fp => exact toggleFieldOp_wf hw hs h
  | removeField p i => exact removeFieldOp_wf hw h
  | reorderFields p o => exact reorderFieldsOp_wf hw h
  | renameField p i nm => exact renameFieldOp_wf hw h
  | addFilter p f => exact addFilterOp_wf hw hs h
  | editFilter p fi idx f => exact editFilterOp_wf hw h
  | removeFilter p idx fi => exact removeFilterOp_wf hw h
  | addLimit p n b d => exact addLimitOp_wf hw hs h
  | removeLimit p => exact removeLimitOp_wf hw h
  | addOrderBy p i d => exact addOrderByOp_wf hw hs h
  | editOrderBy p i d => exact editOrderByOp_wf hw h
  | removeOrderBy p i => exact removeOrderByOp_wf hw h
  | addStage p fi => exact addStageOp_wf hw hs h
  | removeStage p => exact removeStageOp_wf hw h
  | loadQuery qp => exact loadQueryOp_wf hp hw hs h
  | replaceQuery t => exact replaceQueryOp_wf (by simpa [editOpWF] using hop) h

theorem applyEditOp_wf {proj : StructDef → Stage → StructDef} {op : EditOp}
    {st : QueryBuilderState} (hp : ProjWF proj)
    (hw : treeWF st.query = true) (hs : schemaWF st.source = true)
    (hop : editOpWF op = true) :
    treeWF (applyEditOp proj op st).query = true := by
  simp only [applyEditOp]
  split
  · rename_i st1 h
    exact runEditOp_wf hp hw hs hop h
  · exact hw

theorem applyEditOps_wf {proj : StructDef → Stage → StructDef}
    {ops : List EditOp} {st : QueryBuilderState} (hp : ProjWF proj)
    (hw : treeWF st.query = true) (hs : schemaWF st.source = true)
    (hops : editOpsWF ops = true) :
    treeWF (applyEditOps proj ops st).query = true := by
  induction ops generalizing st with
  | nil => exact hw
  | cons op rest ih =>
    simp only [editOpsWF, List.all_cons, Bool.and_eq_true] at hops
    simp only [applyEditOps, List.foldl_cons]
    have hs1 : schemaWF (applyEditOp proj op st).source = true := by
      rw [applyEditOp_source]
      exact hs
    have hrest : editOpsWF rest = true := by
      simp [editOpsWF, hops.2]
    exact ih (applyEditOp_wf hp hw hs hops.1) hs1 hrest

/-- Claim C7: after any sequence of editor operations (with well-formed
schema and arguments) every pipeline in the tree — the root pipeline and the
pipeline of every nested query — is non-empty; and removeStage on the
pipeline's only stage immediately reinserts one empty reduce stage. -/
theorem claim_C7_theorem (proj : StructDef → Stage → StructDef)
    (hp : ProjWF proj) :
    (∀ (st : QueryBuilderState) (ops : List EditOp),
      schemaWF st.source = true → treeWF st.query = true →
      editOpsWF ops = true →
      treeWF (applyEditOps proj ops st).query = true) ∧
    (∀ (st : QueryBuilderState) (s : Stage), st.query.pipeline = [s] →
      runEditOp proj (.removeStage ⟨[], 0⟩) st =
        .ok (st.withPipeline [emptyReduceStage])) := by
  constructor
  · intro st ops hs hw hops
    exact applyEditOps_wf hp hw hs hops
  · intro st s hpipe
    simp [runEditOp, removeStageOp, hpipe]

/-- Witness for C7 at a concrete schema and operation sequence, plus the
removeStage reinsertion on a one-stage tree. -/
theorem claim_C7_witness :
    ProjWF projId ∧
    schemaWF exStateC7.source = true ∧
    treeWF exStateC7.query = true ∧
    editOpsWF [.addField rootPath "age", .removeStage rootPath,
      .addStage none none] = true ∧
    treeWF (applyEditOps projId [.addField rootPath "age",
      .removeStage rootPath, .addStage none none] exStateC7).query = true ∧
    runEditOp projId (.removeStage ⟨[], 0⟩) exStateC7 =
      .ok (exStateC7.withPipeline [emptyReduceStage]) := by
  have hp : ProjWF projId := fun s stage h => h
  refine ⟨hp, rfl, rfl, rfl, ?_, ?_⟩
  · exact (claim_C7_theorem projId hp).1 exStateC7
      [.addField rootPath "age", .removeStage rootPath, .addStage none none]
      rfl rfl rfl
  · exact (claim_C7_theorem projId hp).2 exStateC7 (exStage []) rfl
